import Mathlib

/-!
# Verification of the MeshConfigurator Diff & Apply Engine

Shallow embedding of `controllers/device/device_writer_cli.py` (class
`DeviceWriterCLI`) and the parts of `controllers/device/device_reader.py`
(class `DeviceReader`) that the apply pipeline depends on, together with
theorems settling the specification claims about diffing, channel
reconciliation, execution sequencing, redaction and snapshotting.

Python dictionaries whose values range over scalars, lists and nested
dictionaries are embedded as the inductive type `Value`; a dictionary is an
insertion-ordered association list (`Dict`), with `dget` mirroring
`dict.get(k)` (absent keys and stored `None` both read back as null, exactly
as in the Python code, which never distinguishes the two) and `dinsert`
mirroring `d[k] = v` (overwrite in place, else append).
-/

set_option linter.unusedVariables false
set_option linter.unreachableTactic false
set_option linter.unusedTactic false

namespace MeshConfig

/-- A Python value as it occurs in the writer's data flow: `None`, `bool`,
`int`, `str`, `list`, `dict`. -/
inductive Value where
  | vNull : Value
  | vBool : Bool → Value
  | vInt : Int → Value
  | vStr : String → Value
  | vList : List Value → Value
  | vDict : List (String × Value) → Value
deriving Repr

abbrev Dict := List (String × Value)

namespace Value

mutual

/-- Structural equality of embedded Python values (`==` between values of
like type; cross-type comparisons in this code never compare equal). -/
def beq : Value → Value → Bool
  | vNull, vNull => true
  | vBool a, vBool b => a == b
  | vInt a, vInt b => a == b
  | vStr a, vStr b => a == b
  | vList a, vList b => beqList a b
  | vDict a, vDict b => beqDict a b
  | _, _ => false

def beqList : List Value → List Value → Bool
  | [], [] => true
  | a :: as, b :: bs => beq a b && beqList as bs
  | _, _ => false

def beqDict : List (String × Value) → List (String × Value) → Bool
  | [], [] => true
  | (ka, va) :: as, (kb, vb) :: bs => ka == kb && beq va vb && beqDict as bs
  | _, _ => false

end

mutual

theorem beq_iff : ∀ a b : Value, beq a b = true ↔ a = b
  | vNull, vNull => by simp [beq]
  | vBool a, vBool b => by simp [beq]
  | vInt a, vInt b => by simp [beq]
  | vStr a, vStr b => by simp [beq]
  | vList a, vList b => by
      simp only [beq, vList.injEq]; exact beqList_iff a b
  | vDict a, vDict b => by
      simp only [beq, vDict.injEq]; exact beqDict_iff a b
  | vNull, vBool _ | vNull, vInt _ | vNull, vStr _ | vNull, vList _ | vNull, vDict _
  | vBool _, vNull | vBool _, vInt _ | vBool _, vStr _ | vBool _, vList _ | vBool _, vDict _
  | vInt _, vNull | vInt _, vBool _ | vInt _, vStr _ | vInt _, vList _ | vInt _, vDict _
  | vStr _, vNull | vStr _, vBool _ | vStr _, vInt _ | vStr _, vList _ | vStr _, vDict _
  | vList _, vNull | vList _, vBool _ | vList _, vInt _ | vList _, vStr _ | vList _, vDict _
  | vDict _, vNull | vDict _, vBool _ | vDict _, vInt _ | vDict _, vStr _ | vDict _, vList _ => by
      simp [beq]

theorem beqList_iff : ∀ a b : List Value, beqList a b = true ↔ a = b
  | [], [] => by simp [beqList]
  | a :: as, b :: bs => by
      simp only [beqList, Bool.and_eq_true, List.cons.injEq]
      exact and_congr (beq_iff a b) (beqList_iff as bs)
  | [], _ :: _ => by simp [beqList]
  | _ :: _, [] => by simp [beqList]

theorem beqDict_iff : ∀ a b : List (String × Value), beqDict a b = true ↔ a = b
  | [], [] => by simp [beqDict]
  | (ka, va) :: as, (kb, vb) :: bs => by
      simp only [beqDict, Bool.and_eq_true, List.cons.injEq, Prod.mk.injEq, beq_iff va vb,
        beqDict_iff as bs, beq_iff_eq, and_assoc]
  | [], _ :: _ => by simp [beqDict]
  | _ :: _, [] => by simp [beqDict]

end

instance : DecidableEq Value := fun a b =>
  decidable_of_iff (beq a b = true) (beq_iff a b)

/-- Python truthiness (`bool(v)`) for the embedded value types. -/
def truthy : Value → Bool
  | vNull => false
  | vBool b => b
  | vInt n => n != 0
  | vStr s => s != ""
  | vList l => !l.isEmpty
  | vDict d => !d.isEmpty

/-- Python `str(v)` for the scalar values that reach command construction
(containers never occur as changeset values in this code). -/
def pyStr : Value → String
  | vNull => "None"
  | vBool b => if b then "True" else "False"
  | vInt n => toString n
  | vStr s => s
  | vList _ => "<list>"
  | vDict _ => "<dict>"

end Value

open Value

/-- `d.get(k)`: value under the first occurrence of `k`, null when absent. -/
def dget (d : Dict) (k : String) : Value :=
  match d.find? (fun p => p.1 == k) with
  | some p => p.2
  | none => Value.vNull

/-- `d.get(k)` distinguishing absence (used where Python tests `k in d`). -/
def dfind (d : Dict) (k : String) : Option Value :=
  match d.find? (fun p => p.1 == k) with
  | some p => some p.2
  | none => none

/-- `k in d`. -/
def dhas (d : Dict) (k : String) : Bool :=
  d.any (fun p => p.1 == k)

/-- `d[k] = v`: overwrite the first binding of `k` in place, else append. -/
def dinsert (d : Dict) (k : String) (v : Value) : Dict :=
  if dhas d k then d.map (fun p => if p.1 == k then (k, v) else p)
  else d ++ [(k, v)]

/-- `d.pop(k, None)` / `del d[k]`: remove every binding of `k`. -/
def dremove (d : Dict) (k : String) : Dict :=
  d.filter (fun p => p.1 != k)

/-- Keys in insertion order (`d.keys()`). -/
def dkeys (d : Dict) : List String := d.map Prod.fst

/-! ## Data model (`models/device_model.py`)

`MeshChannel` mirrors the pydantic model: `index` is a plain int,
`position_precision` a plain int defaulting to 0, and the remaining fields
optional. The writer only ever sees channels through `model_dump()`
dictionaries; `chField` gives exactly what `dumped_channel.get(key)` returns
(null for a stored `None`). -/

structure MeshChannel where
  index : Int
  name : Option String := none
  uplink_enabled : Option Bool := none
  downlink_enabled : Option Bool := none
  position_precision : Int := 0
  psk : Option String := none
  psk_present : Bool := false
  role : Option String := none
deriving Repr, DecidableEq

def optStr : Option String → Value
  | some s => vStr s
  | none => vNull

def optBool : Option Bool → Value
  | some b => vBool b
  | none => vNull

/-- `model_dump()[key]` for a channel record. -/
def chField (c : MeshChannel) : String → Value
  | "index" => vInt c.index
  | "name" => optStr c.name
  | "uplink_enabled" => optBool c.uplink_enabled
  | "downlink_enabled" => optBool c.downlink_enabled
  | "position_precision" => vInt c.position_precision
  | "psk" => optStr c.psk
  | "psk_present" => vBool c.psk_present
  | "role" => optStr c.role
  | _ => vNull

/-- `orig_ch.get(key)` where `orig_ch = by_idx_o.get(idx, {})`: the empty
dictionary reads back null for every key. -/
def chGet (c : Option MeshChannel) (k : String) : Value :=
  match c with
  | some ch => chField ch k
  | none => vNull

/-- A configuration snapshot as the writer consumes it: `model_dump()` of
`DeviceModel`. A pydantic section that is `None` and an empty section
dictionary are indistinguishable under `o.get(sec) or {}`, so sections are
stored directly as dictionaries. -/
structure DeviceModel where
  UserInfo : Dict := []
  MetaData : Dict := []
  MyInfo : Dict := []
  Device : Dict := []
  Power : Dict := []
  Lora : Dict := []
  Position : Dict := []
  Display : Dict := []
  BlueTooth : Dict := []
  Network : Dict := []
  MeshChannels : List MeshChannel := []
  ModuleConfig : List (String × Dict) := []
deriving Repr, DecidableEq

/-- `ModuleConfig.get(name) or {}`. -/
def mget (mc : List (String × Dict)) (k : String) : Dict :=
  match mc.find? (fun p => p.1 == k) with
  | some p => p.2
  | none => []

/-! ## `DeviceWriterCLI` helpers -/

/-- Python `s.startswith(prefix)`, read off the character sequences. -/
def pyStartsWith (s pre : String) : Bool :=
  pre.data.isPrefixOf s.data

/-- Python `s.endswith(suffix)`, read off the character sequences. -/
def pyEndsWith (s suffix : String) : Bool :=
  suffix.data.isSuffixOf s.data

/-- `_lower_bool(v)`: `"true" if bool(v) else "false"`. -/
def lower_bool (v : Value) : String :=
  if v.truthy then "true" else "false"

/-- `_norm_text(v)` restricted to the optional strings it is applied to
(channel PSKs): `None`/`''`/whitespace collapse to `None`. -/
def norm_text : Option String → Option String
  | none => none
  | some s => let t := s.trim; if t = "" then none else some t

/-! ## `DeviceWriterCLI._build_diff.sec_diff` -/

/-- The generic per-section differ: for every `(model_key, cli_key)` pair,
emit `cli_key ↦ edited value` iff the edited value is non-null and differs
from the original value. -/
def sec_diff (o_sec e_sec : Dict) (mapping : List (String × String)) : Dict :=
  mapping.foldl
    (fun out p =>
      let ov := dget o_sec p.1
      let ev := dget e_sec p.1
      if ev ≠ vNull ∧ ov ≠ ev then dinsert out p.2 ev else out)
    []

/-! ## `DeviceWriterCLI._diff_channels` (ChannelReconciler) -/

structure Upsert where
  index : Int
  fields : Dict
deriving Repr, DecidableEq

/-- The channel plan: the Python value `{"deletes": [...], "upserts": [...]}`. -/
structure ChannelPlan where
  deletes : List Int
  upserts : List Upsert
deriving Repr, DecidableEq

/-- `{c["index"]: c for c in cs}`: later records with the same index
overwrite earlier ones; key order is first-occurrence order. -/
def idxInsert (m : List (Int × MeshChannel)) (k : Int) (c : MeshChannel) :
    List (Int × MeshChannel) :=
  if m.any (fun p => p.1 == k) then m.map (fun p => if p.1 == k then (k, c) else p)
  else m ++ [(k, c)]

def byIdx (cs : List MeshChannel) : List (Int × MeshChannel) :=
  cs.foldl (fun m c => idxInsert m c.index c) []

def idxGet (m : List (Int × MeshChannel)) (k : Int) : Option MeshChannel :=
  match m.find? (fun p => p.1 == k) with
  | some p => some p.2
  | none => none

def idxHas (m : List (Int × MeshChannel)) (k : Int) : Bool :=
  m.any (fun p => p.1 == k)

/-- `suppress_if_none_defaults`: UI no-op defaults. -/
def suppress_if_none_defaults : Dict :=
  [("uplink_enabled", vBool false), ("downlink_enabled", vBool false),
   ("position_precision", vInt 0)]

/-- The `(model_key, cli_key)` pairs of the per-channel field loop. -/
def channelFieldPairs : List (String × String) :=
  [("uplink_enabled", "uplink_enabled"),
   ("downlink_enabled", "downlink_enabled"),
   ("position_precision", "module_settings.position_precision")]

/-- One iteration of the "other fields" loop of `_diff_channels`: skip a
null edited value, suppress a known default edited over an absent original,
otherwise record the edited value when it differs. -/
def chFieldStep (orig_ch : Option MeshChannel) (ed_ch : MeshChannel)
    (fields : Dict) (p : String × String) : Dict :=
  let val_o := chGet orig_ch p.1
  let val_e := chField ed_ch p.1
  if val_e = vNull then fields
  else if dhas suppress_if_none_defaults p.1 ∧ val_o = vNull ∧
      val_e = dget suppress_if_none_defaults p.1 then fields
  else if val_o ≠ val_e then dinsert fields p.2 val_e
  else fields

/-- The PSK and name comparisons that open the per-channel upsert body of
`_diff_channels`: a normalized PSK compare writing `psk_e or "default"`, and
a direct name compare guarded on the edited name being present. -/
def channelFieldsBase (orig_ch : Option MeshChannel) (ed_ch : MeshChannel) : Dict :=
  let psk_o := norm_text (orig_ch.bind MeshChannel.psk)
  let psk_e := norm_text ed_ch.psk
  let fields : Dict := if psk_o ≠ psk_e then [("psk", vStr (psk_e.getD "default"))] else []
  let name_o := orig_ch.bind MeshChannel.name
  let name_e := ed_ch.name
  match name_e with
  | some n => if name_e ≠ name_o then dinsert fields "name" (vStr n) else fields
  | none => fields

/-- Per-channel changed-field computation: the body of the upsert loop of
`_diff_channels`, for one edited channel against the original record at the
same index (`none` when the index is new). -/
def channelFields (orig_ch : Option MeshChannel) (ed_ch : MeshChannel) : Dict :=
  channelFieldPairs.foldl (chFieldStep orig_ch ed_ch) (channelFieldsBase orig_ch ed_ch)

/-- `_diff_channels(orig, edit)`. -/
def diff_channels (orig edit : List MeshChannel) : ChannelPlan :=
  let by_idx_o := byIdx orig
  let by_idx_e := byIdx edit
  let deletes := (by_idx_o.map Prod.fst).filter
    (fun idx => idx ≠ 0 ∧ ¬ idxHas by_idx_e idx)
  let upserts := (List.insertionSort (fun a b => a.1 ≤ b.1) by_idx_e).foldl
    (fun acc p =>
      let fields := channelFields (idxGet by_idx_o p.1) p.2
      if fields ≠ [] then acc ++ [Upsert.mk p.1 fields] else acc)
    []
  ChannelPlan.mk (List.insertionSort (fun a b => a ≥ b) deletes) upserts

/-! ## `DeviceWriterCLI._build_diff`: static field maps -/

def DEVICE_MAP : List (String × String) := [("role", "device.role")]

def LORA_MAP : List (String × String) :=
  [("region", "lora.region"), ("modemPreset", "lora.modem_preset"),
   ("channelNum", "lora.channel_num"), ("hopLimit", "lora.hop_limit"),
   ("txEnabled", "lora.tx_enabled"), ("txPower", "lora.tx_power")]

def POWER_MAP : List (String × String) :=
  [("lsSecs", "power.ls_secs"), ("waitBluetoothSecs", "power.wait_bluetooth_secs"),
   ("minWakeSecs", "power.min_wake_secs")]

def POSITION_MAP : List (String × String) :=
  [("gpsUpdateInterval", "position.gps_update_interval"),
   ("positionBroadcastSmartEnabled", "position.position_broadcast_smart_enabled"),
   ("broadcastSmartMinimumDistance", "position.broadcast_smart_minimum_distance"),
   ("broadcastSmartMinimumIntervalSecs", "position.broadcast_smart_minimum_interval_secs"),
   ("positionBroadcastSecs", "position.position_broadcast_secs")]

def DISPLAY_MAP : List (String × String) :=
  [("screenOnSecs", "display.screen_on_secs"), ("gpsFormat", "display.gps_format"),
   ("autoScreenCarouselSecs", "display.auto_screen_carousel_secs"),
   ("units", "display.units"), ("oled", "display.oled"),
   ("displaymode", "display.displaymode"), ("headingBold", "display.heading_bold"),
   ("flipScreen", "display.flip_screen"), ("compassNorthTop", "display.compass_north_top"),
   ("wakeOnTapOrMotion", "display.wake_on_tap_or_motion"),
   ("compassOrientation", "display.compass_orientation"),
   ("use12hClock", "display.use_12h_clock")]

def BLUETOOTH_MAP : List (String × String) :=
  [("enabled", "bluetooth.enabled"), ("fixedPin", "bluetooth.fixed_pin"),
   ("mode", "bluetooth.mode")]

def NETWORK_MAP : List (String × String) :=
  [("ntpServer", "network.ntp_server"), ("wifiEnabled", "network.wifi_enabled"),
   ("wifiSsid", "network.wifi_ssid"), ("wifiPsk", "network.wifi_psk"),
   ("ethEnabled", "network.eth_enabled"), ("rsyslogServer", "network.rsyslog_server")]

def MODULE_MAPS : List (String × List (String × String)) :=
  [("mqtt",
    [("enabled", "mqtt.enabled"), ("address", "mqtt.address"),
     ("username", "mqtt.username"), ("password", "mqtt.password"),
     ("root", "mqtt.root"), ("json_enabled", "mqtt.json_enabled"),
     ("tls_enabled", "mqtt.tls_enabled"),
     ("proxy_to_client_enabled", "mqtt.proxy_to_client_enabled"),
     ("map_reporting_enabled", "mqtt.map_reporting_enabled")]),
   ("serial",
    [("enabled", "serial.enabled"), ("echo", "serial.echo"), ("rxd", "serial.rxd"),
     ("txd", "serial.txd"), ("baud", "serial.baud"), ("timeout", "serial.timeout"),
     ("mode", "serial.mode"),
     ("override_console_serial_port", "serial.override_console_serial_port")]),
   ("store_forward",
    [("enabled", "store_forward.enabled"), ("heartbeat", "store_forward.heartbeat"),
     ("records", "store_forward.records"),
     ("history_return_max", "store_forward.history_return_max"),
     ("history_return_window", "store_forward.history_return_window"),
     ("is_server", "store_forward.is_server")]),
   ("range_test",
    [("enabled", "range_test.enabled"), ("sender", "range_test.sender"),
     ("save", "range_test.save")]),
   ("telemetry",
    [("device_update_interval", "telemetry.device_update_interval"),
     ("environment_update_interval", "telemetry.environment_update_interval"),
     ("environment_measurement_enabled", "telemetry.environment_measurement_enabled"),
     ("environment_screen_enabled", "telemetry.environment_screen_enabled"),
     ("environment_display_fahrenheit", "telemetry.environment_display_fahrenheit"),
     ("air_quality_enabled", "telemetry.air_quality_enabled"),
     ("air_quality_interval", "telemetry.air_quality_interval"),
     ("power_measurement_enabled", "telemetry.power_measurement_enabled"),
     ("power_update_interval", "telemetry.power_update_interval"),
     ("power_screen_enabled", "telemetry.power_screen_enabled"),
     ("health_measurement_enabled", "telemetry.health_measurement_enabled"),
     ("health_update_interval", "telemetry.health_update_interval"),
     ("health_screen_enabled", "telemetry.health_screen_enabled")]),
   ("canned_message",
    [("enabled", "canned_message.enabled"),
     ("allow_input_source", "canned_message.allow_input_source"),
     ("send_bell", "canned_message.send_bell")]),
   ("audio",
    [("codec2_enabled", "audio.codec2_enabled"), ("ptt_pin", "audio.ptt_pin"),
     ("bitrate", "audio.bitrate"), ("i2s_ws", "audio.i2s_ws"),
     ("i2s_sd", "audio.i2s_sd"), ("i2s_din", "audio.i2s_din"),
     ("i2s_sck", "audio.i2s_sck")]),
   ("remote_hardware", [("enabled", "remote_hardware.enabled")]),
   ("neighbor_info",
    [("enabled", "neighbor_info.enabled"),
     ("update_interval", "neighbor_info.update_interval"),
     ("transmit_over_lora", "neighbor_info.transmit_over_lora")]),
   ("ambient_lighting",
    [("led_state", "ambient_lighting.led_state"), ("current", "ambient_lighting.current"),
     ("red", "ambient_lighting.red"), ("green", "ambient_lighting.green"),
     ("blue", "ambient_lighting.blue")]),
   ("detection_sensor",
    [("enabled", "detection_sensor.enabled"),
     ("minimum_broadcast_secs", "detection_sensor.minimum_broadcast_secs"),
     ("detection_trigger_type", "detection_sensor.detection_trigger_type"),
     ("state_broadcast_secs", "detection_sensor.state_broadcast_secs"),
     ("send_bell", "detection_sensor.send_bell"), ("name", "detection_sensor.name"),
     ("monitor_pin", "detection_sensor.monitor_pin"),
     ("use_pullup", "detection_sensor.use_pullup")]),
   ("paxcounter",
    [("enabled", "paxcounter.enabled"),
     ("paxcounter_update_interval", "paxcounter.paxcounter_update_interval")])]

/-! ## `DeviceWriterCLI._build_diff`: assembly -/

/-- `_norm(v)` of the module-diff loop: blank/whitespace strings become
`None`, everything else is unchanged. -/
def module_norm (v : Value) : Value :=
  match v with
  | vStr s => let t := s.trim; if t = "" then vNull else vStr t
  | v => v

/-- The full diff: one changeset per section plus the channel plan
(`{"device": ..., "owner": ..., ..., "channels": plan, "modules": ...}`). -/
structure Diff where
  device : Dict := []
  owner : Dict := []
  lora : Dict := []
  power : Dict := []
  position : Dict := []
  display : Dict := []
  bluetooth : Dict := []
  network : Dict := []
  channels : ChannelPlan := ChannelPlan.mk [] []
  modules : Dict := []
deriving Repr, DecidableEq

/-- The fix-up applied to `diff["bluetooth"]["bluetooth.fixed_pin"]`: drop an
empty/blank string, coerce an all-digit string to an integer. -/
def fix_fixed_pin (bt : Dict) : Dict :=
  let bt_key := "bluetooth.fixed_pin"
  match dfind bt bt_key with
  | some (vStr s0) =>
      let s := s0.trim
      if s = "" then dremove bt bt_key
      else if s ≠ "" ∧ s.all Char.isDigit then dinsert bt bt_key (vInt (s.toNat?.getD 0))
      else bt
  | _ => bt

/-- The module-config diff: for every module map, normalized compare with the
default-`False` suppression. -/
def modules_diff (o_mc e_mc : List (String × Dict)) : Dict :=
  MODULE_MAPS.foldl
    (fun acc m =>
      let o_sec := mget o_mc m.1
      let e_sec := mget e_mc m.1
      m.2.foldl
        (fun acc p =>
          let ov := dget o_sec p.1
          let ev := dget e_sec p.1
          let ovn := module_norm ov
          let evn := module_norm ev
          if evn = vNull then acc
          else if evn = vBool false ∧ ov = vNull then acc
          else if ovn ≠ evn then dinsert acc p.2 evn
          else acc)
        acc)
    []

/-- The owner-name diff (special CLI flags, compared directly against the
original user-info record). -/
def owner_diff (o_user e_user : Dict) : Dict :=
  let long_o := dget o_user "longName"
  let long_e := dget e_user "longName"
  let short_o := dget o_user "shortName"
  let short_e := dget e_user "shortName"
  let d : Dict := []
  let d := if long_e ≠ vNull ∧ long_e ≠ long_o then dinsert d "owner_long" long_e else d
  if short_e ≠ vNull ∧ short_e ≠ short_o then dinsert d "owner_short" short_e else d

/-- `_build_diff(original, edited)`. -/
def build_diff (original edited : DeviceModel) : Diff :=
  let o := original
  let e := edited
  { device := sec_diff o.Device e.Device DEVICE_MAP
    owner := owner_diff o.UserInfo e.UserInfo
    lora := sec_diff o.Lora e.Lora LORA_MAP
    power := sec_diff o.Power e.Power POWER_MAP
    position := sec_diff o.Position e.Position POSITION_MAP
    display := sec_diff o.Display e.Display DISPLAY_MAP
    bluetooth := fix_fixed_pin (sec_diff o.BlueTooth e.BlueTooth BLUETOOTH_MAP)
    network := sec_diff o.Network e.Network NETWORK_MAP
    channels := diff_channels o.MeshChannels e.MeshChannels
    modules := modules_diff o.ModuleConfig e.ModuleConfig }

/-! ## Reboot expectation -/

/-- `_REBOOT_SUSPECTS`. -/
def REBOOT_SUSPECTS : List (String × String) :=
  [("device", "role"), ("lora", "region"), ("lora", "modem_preset"),
   ("bluetooth", "enabled")]

/-- `diff.get(sec)` for the section names the reboot check consults. -/
def Diff.secDict (d : Diff) : String → Dict
  | "device" => d.device
  | "owner" => d.owner
  | "lora" => d.lora
  | "power" => d.power
  | "position" => d.position
  | "display" => d.display
  | "bluetooth" => d.bluetooth
  | "network" => d.network
  | "modules" => d.modules
  | _ => []

/-- `_is_reboot_expected(diff)`: some reboot-suspect `(section, key)` has a
non-empty section changeset containing a key that ends with `key`. -/
def is_reboot_expected (d : Diff) : Bool :=
  REBOOT_SUSPECTS.any
    (fun p => !(d.secDict p.1).isEmpty && (dkeys (d.secDict p.1)).any
      (fun k => pyEndsWith k p.2))

/-! ## `DeviceWriterCLI._redact` (Redactor) -/

/-- `_REDACT_KEYS`. -/
def REDACT_KEYS : List String :=
  ["psk", "password", "pin", "wifi_psk", "fixed_pin", "wifiPsk", "fixedPin"]

/-- The emptiness test of `_redact`: `None`, `''`, `[]`, `{}`. -/
def isEmptyVal (v : Value) : Bool :=
  v == vNull || v == vStr "" || v == vList [] || v == vDict []

mutual

/-- `_redact(obj)`: scalars pass through; lists are redacted item-wise and
emptied items dropped; dictionaries replace secret-key values by the marker
and drop entries whose redacted value is empty. -/
def redact : Value → Value
  | vNull => vNull
  | vBool b => vBool b
  | vInt n => vInt n
  | vStr s => vStr s
  | vList items => vList ((redactItems items).filter (fun item => !isEmptyVal item))
  | vDict es => vDict (redactEntries [] es)
termination_by v => sizeOf v
decreasing_by all_goals simp_wf
              all_goals omega

/-- `[self._redact(item) for item in obj]`. -/
def redactItems : List Value → List Value
  | [] => []
  | item :: rest => redact item :: redactItems rest
termination_by l => sizeOf l
decreasing_by all_goals simp_wf
              all_goals omega

/-- The dictionary loop of `_redact`, building `new_dict` entry by entry. -/
def redactEntries : List (String × Value) → List (String × Value) → List (String × Value)
  | acc, [] => acc
  | acc, (k, v) :: rest =>
      if k ∈ REDACT_KEYS then redactEntries (dinsert acc k (vStr "<redacted>")) rest
      else
        let pv := redact v
        if !isEmptyVal pv then redactEntries (dinsert acc k pv) rest
        else redactEntries acc rest
termination_by acc l => sizeOf l
decreasing_by all_goals simp_wf
              all_goals omega

end

/-! ## `DeviceWriterCLI._sanitize_args` / `_redact_value` -/

/-- `_redact_value(val)`. -/
def redact_value (val : String) : String :=
  if pyStartsWith val "base64:" then "base64:<redacted>" else "<redacted>"

/-- `out[i]` on the argument list (every access is in bounds in the loop). -/
def argAt (out : List String) (i : Nat) : String := out.getD i ""

theorem length_if_set (out : List String) (i : Nat) (s : String) :
    (if i + 2 < out.length then out.set (i + 2) s else out).length = out.length := by
  split <;> simp

/-- The scanning loop of `_sanitize_args`: whenever `out[i] == "--ch-set"`
and `out[i+1] == "psk"`, redact `out[i+2]` and jump by three, else advance
by one. -/
def sanitizeLoop (out : List String) (i : Nat) : List String :=
  if h : i < out.length then
    if argAt out i = "--ch-set" ∧ i + 1 < out.length ∧ argAt out (i + 1) = "psk" then
      let out' := if i + 2 < out.length then
          out.set (i + 2) (redact_value (argAt out (i + 2)))
        else out
      sanitizeLoop out' (i + 3)
    else
      sanitizeLoop out (i + 1)
  else out
termination_by out.length - i
decreasing_by
  all_goals simp_wf
  all_goals try simp only [length_if_set]
  all_goals omega

/-- `_sanitize_args(args)`: works on a copy of the list. -/
def sanitize_args (args : List String) : List String :=
  sanitizeLoop args 0

/-! ## Execution results (`_device_common.CliResult`, `_to_section_result`) -/

/-- The result of one external CLI invocation (`CliResult` dataclass; the
`cmd` echo is omitted, the engine never reads it back). -/
structure CliResult where
  returncode : Int
  stdout : String := ""
  stderr : String := ""
  duration_s : ℚ := 0
deriving Repr, DecidableEq

/-- The per-index result entries of the channels executor
(`{"index": idx, **self._to_section_result(res, ...)}`). -/
structure ChanRes where
  index : Int
  status : String
  fieldsChanged : List String
  duration_s : ℚ
  stdout : String
  stderr : String
deriving Repr, DecidableEq

/-- A section result dictionary: the bare `{"status": "no_change"}`, the
normalized form produced by `_to_section_result`, or the channels form with
its nested per-index results. -/
inductive SecRes where
  | simple (status : String)
  | norm (status : String) (fieldsChanged : List String) (duration_s : ℚ)
      (stdout stderr : String)
  | chan (status : String) (deleted : List ChanRes) (upserts : List ChanRes)
deriving Repr, DecidableEq

def SecRes.status : SecRes → String
  | .simple s => s
  | .norm s _ _ _ _ => s
  | .chan s _ _ => s

/-- `round(x, 3)`. -/
def round3 (x : ℚ) : ℚ := (round (x * 1000) : ℤ) / 1000

/-- `_to_section_result(res, fields=...)`. -/
def to_section_result (res : CliResult) (fields : List String) : SecRes :=
  let status := if res.returncode = 0 then "success"
    else if res.returncode = 124 then "timeout"
    else "error"
  SecRes.norm status (if status = "success" then fields else [])
    (round3 res.duration_s) (res.stdout.trim.take 400) (res.stderr.trim.take 400)

/-- `_to_section_result` fields spliced after an `"index"` key. -/
def toChanRes (idx : Int) (res : CliResult) (fields : List String) : ChanRes :=
  match to_section_result res fields with
  | .norm st fc d so se => ChanRes.mk idx st fc d so se
  | _ => ChanRes.mk idx "" [] 0 "" ""

/-! ## Observable effects and the environment

The engine's side effects are recorded as a trace: detaching the serial
interface, logging a command line, running the external CLI, sleeping, and
reconnecting/snapshotting. The outside world (the CLI tool's behavior and
whether reconnection succeeds) is an `Env`. -/

inductive Eff where
  | detach
  | logCmd (line : String)
  | execCli (args : List String) (timeout_s : ℚ)
  | sleep (secs : ℚ)
  | reconnect (wait_ready_s : ℚ)
  | snapshotReq (force_refresh : Bool)
deriving Repr, DecidableEq

/-! ## Reader state (`DeviceReader.snapshot`)

The serial interface is modelled by the dictionary-shaped data it exposes
(the protobuf-to-dict conversion is outside the program) plus the outcome of
a refresh round-trip: `waitForConfig`/`requestChannels` either raise (their
exceptions are swallowed by `snapshot`, leaving the cached data in place) or
succeed, after which the interface exposes `refreshedData`. -/

structure IfaceData where
  cfgLoaded : Bool := true
  user : Dict := []
  metadata : Dict := []
  myInfo : Dict := []
  port : String := ""
  device : Dict := []
  power : Dict := []
  lora : Dict := []
  position : Dict := []
  display : Dict := []
  bluetooth : Dict := []
  network : Dict := []
  moduleConfig : List (String × Dict) := []
  channels : List Dict := []
deriving Repr, DecidableEq

structure Iface where
  data : IfaceData := {}
  refreshOk : Bool := true
  refreshedData : IfaceData := {}
deriving Repr, DecidableEq

/-- `int(v)` for the values met while building channel records (absent keys
default through `.get(key, 0)` to 0). -/
def pyInt (v : Value) : Int :=
  match v with
  | vInt n => n
  | vBool b => if b then 1 else 0
  | vStr s => s.toInt?.getD 0
  | _ => 0

/-- `_read_position_precision(settings)` (dict path): try
`moduleSettings.positionPrecision`, then `positionPrecision`, else 0. -/
def read_position_precision (settings : Dict) : Int :=
  let ms := match dget settings "moduleSettings" with
    | vDict d => d
    | _ => []
  if dhas ms "positionPrecision" then pyInt (dget ms "positionPrecision")
  else if dhas settings "positionPrecision" then pyInt (dget settings "positionPrecision")
  else 0

def valToOptStr : Value → Option String
  | vStr s => some s
  | _ => none

/-- The channel-building loop of `DeviceReader.snapshot` (lines 152-173):
skip entries without settings or with role `DISABLED`, then build a
`MeshChannel` from the settings dictionary. -/
def buildChannels (chs : List Dict) : List MeshChannel :=
  chs.foldl
    (fun acc chd =>
      let settings := match dget chd "settings" with
        | vDict d => d
        | _ => []
      if settings.isEmpty || (pyStr (dget chd "role")).toUpper == "DISABLED" then acc
      else
        let psk := dget settings "psk"
        acc ++ [{ index := pyInt (dget chd "index")
                  name := match dget settings "name" with
                    | vStr s => if s ≠ "" then some s else none
                    | _ => none
                  uplink_enabled := some (dget settings "uplinkEnabled").truthy
                  downlink_enabled := some (dget settings "downlinkEnabled").truthy
                  position_precision := read_position_precision settings
                  psk := valToOptStr psk
                  psk_present := psk.truthy
                  role := valToOptStr (dget chd "role") }])
    []

/-- The model-building tail of `DeviceReader.snapshot` (lines 145-188),
reading whatever data the interface currently exposes. -/
def readModel (d : IfaceData) : DeviceModel :=
  { UserInfo := d.user
    MetaData := dinsert d.metadata "port" (vStr d.port)
    MyInfo := d.myInfo
    Device := d.device
    Power := d.power
    Lora := d.lora
    Position := d.position
    Display := d.display
    BlueTooth := d.bluetooth
    Network := d.network
    MeshChannels := buildChannels d.channels
    ModuleConfig := d.moduleConfig }

/-- `DeviceReader.snapshot(force_refresh)`: when a refresh is wanted
(forced, or the cached config/channels are missing) it is attempted, and a
failure is swallowed, falling back to the data already cached; the model is
then read from whatever the interface exposes. -/
def snapshot (ifc : Iface) (force_refresh : Bool) : DeviceModel :=
  let cfg_loaded := ifc.data.cfgLoaded
  let channels_loaded := !ifc.data.channels.isEmpty
  let wantsRefresh := (force_refresh || !cfg_loaded) || (force_refresh || !channels_loaded)
  let dataAfter := if wantsRefresh then
      (if ifc.refreshOk then ifc.refreshedData else ifc.data)
    else ifc.data
  readModel dataAfter

/-! ## Environment: the outside world as the engine observes it -/

structure Env where
  /-- Behavior of `_exec_cli(args, ...)`: what the external tool returns. -/
  cli : List String → CliResult
  /-- Whether `_reconnect_after_cli` + post-apply `snapshot` complete
  without raising. -/
  reconnectOk : Bool := true
  reconnectErrMsg : String := "reconnect failed"
  /-- The interface state the reader sees after reconnecting. -/
  iface : Iface := {}

/-- `_run_cli_logged(section, args, timeout_s)`: logs the sanitized copy of
the arguments, executes the original arguments. -/
def run_cli_logged (env : Env) (section_name : String) (args : List String)
    (timeout_s : ℚ) : CliResult × List Eff :=
  (env.cli args,
   [Eff.logCmd ("meshtastic " ++ " ".intercalate (sanitize_args args)),
    Eff.execCli args timeout_s])

/-! ## Section executors -/

/-- `_exec_generic(section_name, changes, bool_keys)`. -/
def exec_generic (env : Env) (section_name : String) (changes : Dict)
    (bool_keys : List String) : SecRes × List Eff :=
  if changes.isEmpty then (SecRes.simple "no_change", [])
  else
    let sorted_keys := List.insertionSort (fun a b : String => a ≤ b) (dkeys changes)
    let args := sorted_keys.foldl
      (fun acc k =>
        let v := dget changes k
        let isBool := match v with | vBool _ => true | _ => false
        let val := if k ∈ bool_keys ∨ isBool = true then lower_bool v else pyStr v
        acc ++ ["--set", k, val])
      []
    let (res, tr) := run_cli_logged env section_name args 20
    (to_section_result res sorted_keys, tr)

/-- `_exec_device(changes)`: reads the first key/value pair without an
emptiness guard — `next(iter({}))` raises `StopIteration`, modelled as
`none`. -/
def exec_device (env : Env) (changes : Dict) : Option (SecRes × List Eff) :=
  match changes with
  | [] => none
  | (k, v) :: _ =>
      let args := ["--set", k, pyStr v]
      let (res, tr) := run_cli_logged env "device" args 20
      some (to_section_result res (dkeys changes), tr)

/-- `_exec_owner(changes)`. -/
def exec_owner (env : Env) (changes : Dict) : SecRes × List Eff :=
  let args :=
    (if dhas changes "owner_long" then
      ["--set-owner", pyStr (dget changes "owner_long")] else []) ++
    (if dhas changes "owner_short" then
      ["--set-owner-short", pyStr (dget changes "owner_short")] else [])
  if args.isEmpty then (SecRes.simple "no_change", [])
  else
    let (res, tr) := run_cli_logged env "owner" args 20
    (to_section_result res (dkeys changes), tr)

def DISPLAY_BOOL_KEYS : List String :=
  ["display.heading_bold", "display.flip_screen", "display.compass_north_top",
   "display.wake_on_tap_or_motion", "display.use_12h_clock"]

def MODULES_BOOL_KEYS : List String :=
  ["mqtt.enabled", "mqtt.json_enabled", "mqtt.tls_enabled",
   "mqtt.proxy_to_client_enabled", "mqtt.map_reporting_enabled",
   "serial.enabled", "serial.echo", "serial.override_console_serial_port",
   "store_forward.enabled", "store_forward.heartbeat", "store_forward.is_server",
   "range_test.enabled", "range_test.save",
   "telemetry.environment_measurement_enabled", "telemetry.environment_screen_enabled",
   "telemetry.environment_display_fahrenheit", "telemetry.air_quality_enabled",
   "telemetry.power_measurement_enabled", "telemetry.power_screen_enabled",
   "telemetry.health_measurement_enabled", "telemetry.health_screen_enabled",
   "canned_message.enabled", "canned_message.send_bell",
   "audio.codec2_enabled", "remote_hardware.enabled",
   "neighbor_info.enabled", "neighbor_info.transmit_over_lora",
   "ambient_lighting.led_state",
   "detection_sensor.enabled", "detection_sensor.send_bell",
   "detection_sensor.use_pullup", "paxcounter.enabled"]

/-- The `--ch-set key value` argument pairs for one upsert's fields. -/
def chanSetArgs (fields : Dict) : List String :=
  fields.foldl
    (fun acc p =>
      if p.1 = "psk" then
        let val := if p.2 = vStr "default" then "default" else "base64:" ++ pyStr p.2
        acc ++ ["--ch-set", "psk", val]
      else
        let isBool := match p.2 with | vBool _ => true | _ => false
        let val := if isBool then lower_bool p.2 else pyStr p.2
        acc ++ ["--ch-set", p.1, val])
    []

/-- The delete loop of `_exec_channels`: one `--ch-del` per index, stopping
(with the error flag) at the first non-zero exit. -/
def execChanDeletes (env : Env) : List Int → List ChanRes × List Eff × Bool
  | [] => ([], [], false)
  | idx :: rest =>
      let args := ["--ch-index", toString idx, "--ch-del"]
      let (res, tr) := run_cli_logged env ("channels:del[" ++ toString idx ++ "]") args 20
      let r := toChanRes idx res []
      if res.returncode ≠ 0 then ([r], tr, true)
      else
        let (rs, trs, err) := execChanDeletes env rest
        (r :: rs, tr ++ trs, err)

/-- The upsert loop of `_exec_channels`: a non-zero index carrying a name
becomes `--ch-add <name>` with the name removed from the field list;
stopping at the first non-zero exit. -/
def execChanUpserts (env : Env) : List Upsert → List ChanRes × List Eff × Bool
  | [] => ([], [], false)
  | u :: rest =>
      let idx := u.index
      let (args0, fields) :=
        if idx > 0 ∧ dhas u.fields "name" then
          (["--ch-add", pyStr (dget u.fields "name")], dremove u.fields "name")
        else (["--ch-index", toString idx], u.fields)
      let args := args0 ++ chanSetArgs fields
      let (res, tr) := run_cli_logged env ("channels:set[" ++ toString idx ++ "]") args 25
      let r := toChanRes idx res (dkeys fields)
      if res.returncode ≠ 0 then ([r], tr, true)
      else
        let (rs, trs, err) := execChanUpserts env rest
        (r :: rs, tr ++ trs, err)

/-- `_exec_channels(plan)`: deletes then upserts; `error` aborts with the
results gathered so far; otherwise `no_change` when nothing ran, else
`success`. -/
def exec_channels (env : Env) (plan : ChannelPlan) : SecRes × List Eff :=
  let (del, trD, errD) := execChanDeletes env plan.deletes
  if errD then (SecRes.chan "error" del [], trD)
  else
    let (ups, trU, errU) := execChanUpserts env plan.upserts
    if errU then (SecRes.chan "error" del ups, trD ++ trU)
    else
      let overall := if plan.deletes.isEmpty && plan.upserts.isEmpty then "no_change"
        else "success"
      (SecRes.chan overall del ups, trD ++ trU)

/-! ## `DeviceWriterCLI.apply_from_models` (ApplyOrchestrator) -/

/-- A section payload of the execution plan: a changeset dictionary, or the
channel plan (itself a two-key dictionary in the original). -/
inductive Payload where
  | dict (d : Dict)
  | plan (p : ChannelPlan)
deriving Repr, DecidableEq

/-- Python truthiness of a payload: a changeset is truthy iff non-empty; the
channel-plan dictionary `{"deletes": ..., "upserts": ...}` always has its
two keys and is therefore always truthy, even when both lists are empty. -/
def Payload.truthy : Payload → Bool
  | .dict d => !d.isEmpty
  | .plan _ => true

/-- The fixed execution order with each section's payload. -/
def executionPlan (diff : Diff) : List (String × Payload) :=
  [("device", .dict diff.device), ("owner", .dict diff.owner),
   ("lora", .dict diff.lora), ("power", .dict diff.power),
   ("position", .dict diff.position), ("display", .dict diff.display),
   ("bluetooth", .dict diff.bluetooth), ("network", .dict diff.network),
   ("channels", .plan diff.channels), ("modules", .dict diff.modules)]

/-- `fn(payload)` for each `(section, fn, payload)` row of the plan. -/
def callExec (env : Env) : String × Payload → Option (SecRes × List Eff)
  | ("device", .dict d) => exec_device env d
  | ("owner", .dict d) => some (exec_owner env d)
  | ("lora", .dict d) => some (exec_generic env "lora" d ["lora.tx_enabled"])
  | ("power", .dict d) => some (exec_generic env "power" d [])
  | ("position", .dict d) =>
      some (exec_generic env "position" d ["position.position_broadcast_smart_enabled"])
  | ("display", .dict d) => some (exec_generic env "display" d DISPLAY_BOOL_KEYS)
  | ("bluetooth", .dict d) => some (exec_generic env "bluetooth" d ["bluetooth.enabled"])
  | ("network", .dict d) =>
      some (exec_generic env "network" d ["network.wifi_enabled", "network.eth_enabled"])
  | ("channels", .plan p) => some (exec_channels env p)
  | ("modules", .dict d) => some (exec_generic env "modules" d MODULES_BOOL_KEYS)
  | _ => none

structure LoopAcc where
  sections : List (String × SecRes) := []
  errors : List (String × SecRes) := []
  status : String := "ok"
  anySuccess : Bool := false
  trace : List Eff := []
  exc : Bool := false

/-- The section loop of `apply_from_models`: skip falsy payloads, record
each result, mark successes, and break with overall status `error` on any
result that is neither `success` nor `no_change`. `exc` marks an exception
escaping an executor (possible only for an empty device payload, which the
truthiness guard prevents). -/
def applyLoop (env : Env) : List (String × Payload) → LoopAcc → LoopAcc
  | [], acc => acc
  | entry :: rest, acc =>
      if !entry.2.truthy then applyLoop env rest acc
      else
        match callExec env entry with
        | none => { acc with exc := true }
        | some (sec_res, tr) =>
            let acc' := { acc with
              sections := acc.sections ++ [(entry.1, sec_res)],
              trace := acc.trace ++ tr }
            if sec_res.status = "success" then
              applyLoop env rest { acc' with anySuccess := true }
            else if sec_res.status ≠ "no_change" then
              { acc' with status := "error", errors := acc'.errors ++ [(entry.1, sec_res)] }
            else applyLoop env rest acc'

/-- An entry of `report["errors"]`. -/
inductive ErrEntry where
  | sec (name : String) (res : SecRes)
  | reconnectOrSnapshot (msg : String)
deriving Repr, DecidableEq

/-- The apply report. The early no-change report has no `errors` or
`post_snapshot` keys (`none`). -/
structure Report where
  status : String
  sections : List (String × SecRes)
  errors : Option (List ErrEntry) := none
  post_snapshot : Option DeviceModel := none

/-- `apply_from_models` after the short-circuit check: detach, run the
section loop, settle-wait when a reboot is expected or anything succeeded,
reconnect and take a forced-refresh snapshot (a failure there is recorded,
not raised), and always detach again. An exception escaping the loop
(`exc`) yields no report but still runs the final detach. -/
def apply_diff (env : Env) (diff : Diff) : Option Report × List Eff :=
  let reboot_expected := is_reboot_expected diff
  let acc := applyLoop env (executionPlan diff) {}
  if acc.exc then (none, [Eff.detach] ++ acc.trace ++ [Eff.detach])
  else
    let settleTr : List Eff :=
      if reboot_expected || acc.anySuccess then [Eff.sleep 2] else []
    let (post, recErrs, recTr) :=
      if env.reconnectOk then
        (some (snapshot env.iface true), ([] : List ErrEntry),
         [Eff.reconnect 15, Eff.snapshotReq true])
      else
        ([] |>.head?, [ErrEntry.reconnectOrSnapshot env.reconnectErrMsg],
         [Eff.reconnect 15])
    (some { status := acc.status
            sections := acc.sections
            errors := some (acc.errors.map (fun p => ErrEntry.sec p.1 p.2) ++ recErrs)
            post_snapshot := post },
     [Eff.detach] ++ acc.trace ++ settleTr ++ recTr ++ [Eff.detach])

/-- Truthiness of `diff["channels"]` in `any(diff.values())`: the plan is a
dictionary holding the keys `"deletes"` and `"upserts"`, so it is non-empty
and truthy no matter what the two lists contain. -/
def channelsValueTruthy (_p : ChannelPlan) : Bool := true

/-- `any(diff.values())` over the ten section values in insertion order. -/
def diffAnyTruthy (d : Diff) : Bool :=
  !d.device.isEmpty || !d.owner.isEmpty || !d.lora.isEmpty || !d.power.isEmpty ||
  !d.position.isEmpty || !d.display.isEmpty || !d.bluetooth.isEmpty ||
  !d.network.isEmpty || channelsValueTruthy d.channels || !d.modules.isEmpty

/-- `apply_from_models(original, edited)`. -/
def apply_from_models (env : Env) (original edited : DeviceModel) :
    Option Report × List Eff :=
  let diff := build_diff original edited
  if !diffAnyTruthy diff then
    (some { status := "no_change", sections := [] }, [])
  else apply_diff env diff

/-! ## Dictionary lemmas -/

theorem dfind_nil (k : String) : dfind [] k = none := rfl

theorem dfind_cons (p : String × Value) (d : Dict) (k : String) :
    dfind (p :: d) k = if p.1 = k then some p.2 else dfind d k := by
  by_cases h : p.1 = k
  · simp [dfind, List.find?, h]
  · have hb : (p.1 == k) = false := beq_eq_false_iff_ne.mpr h
    simp [dfind, List.find?, hb, h]

theorem dhas_nil (k : String) : dhas [] k = false := rfl

theorem dhas_cons (p : String × Value) (d : Dict) (k : String) :
    dhas (p :: d) k = (p.1 == k || dhas d k) := by
  simp [dhas]

theorem dhas_iff_mem_dkeys (d : Dict) (k : String) :
    dhas d k = true ↔ k ∈ dkeys d := by
  simp only [dhas, List.any_eq_true, beq_iff_eq, dkeys, List.mem_map]

theorem dfind_eq_none_of_not_mem (d : Dict) (k : String)
    (h : k ∉ dkeys d) : dfind d k = none := by
  induction d with
  | nil => rfl
  | cons p d ih =>
      simp only [dkeys, List.map_cons, List.mem_cons, not_or] at h
      rw [dfind_cons, if_neg (fun hh => h.1 hh.symm)]
      exact ih (by simpa [dkeys] using h.2)

theorem dinsert_of_not_has (d : Dict) (k : String) (v : Value)
    (h : dhas d k = false) : dinsert d k v = d ++ [(k, v)] := by
  simp [dinsert, h]

theorem dkeys_append (d1 d2 : Dict) : dkeys (d1 ++ d2) = dkeys d1 ++ dkeys d2 := by
  simp [dkeys]

theorem dfind_append_right (d1 d2 : Dict) (k : String) (h : k ∉ dkeys d1) :
    dfind (d1 ++ d2) k = dfind d2 k := by
  induction d1 with
  | nil => simp
  | cons p d1 ih =>
      simp only [dkeys, List.map_cons, List.mem_cons, not_or] at h
      rw [List.cons_append, dfind_cons, if_neg (fun hh => h.1 hh.symm)]
      exact ih (by simpa [dkeys] using h.2)

theorem dkeys_dinsert_subset (d : Dict) (k : String) (v : Value) :
    ∀ k' ∈ dkeys (dinsert d k v), k' ∈ dkeys d ∨ k' = k := by
  intro k' hk'
  simp only [dinsert] at hk'
  by_cases h : dhas d k = true
  · rw [if_pos h] at hk'
    simp only [dkeys, List.map_map, List.mem_map, Function.comp] at hk'
    obtain ⟨p, hp, hpk⟩ := hk'
    by_cases hb : (p.1 == k) = true
    · rw [if_pos hb] at hpk
      right; exact hpk.symm
    · rw [if_neg (by simpa using hb)] at hpk
      left; exact List.mem_map.mpr ⟨p, hp, hpk⟩
  · rw [if_neg h, dkeys_append] at hk'
    simp only [dkeys, List.map_cons, List.map_nil, List.mem_append,
      List.mem_singleton] at hk'
    exact hk'

/-! ## C5: characterization of the generic section differ -/

/-- The per-pair decision of `sec_diff` as an optional output entry. -/
def secDiffStep (o_sec e_sec : Dict) (p : String × String) : Option (String × Value) :=
  let ov := dget o_sec p.1
  let ev := dget e_sec p.1
  if ev ≠ vNull ∧ ov ≠ ev then some (p.2, ev) else none

theorem sec_diff_foldl_eq (o_sec e_sec : Dict) :
    ∀ (mapping : List (String × String)) (acc : Dict),
      (mapping.map Prod.snd).Nodup →
      (∀ p ∈ mapping, dhas acc p.2 = false) →
      mapping.foldl
        (fun out p =>
          let ov := dget o_sec p.1
          let ev := dget e_sec p.1
          if ev ≠ vNull ∧ ov ≠ ev then dinsert out p.2 ev else out)
        acc
      = acc ++ mapping.filterMap (secDiffStep o_sec e_sec) := by
  intro mapping
  induction mapping with
  | nil => intro acc _ _; simp
  | cons p rest ih =>
      intro acc hnd hfresh
      simp only [List.map_cons, List.nodup_cons] at hnd
      simp only [List.foldl_cons, List.filterMap_cons]
      by_cases hc : dget e_sec p.1 ≠ vNull ∧ dget o_sec p.1 ≠ dget e_sec p.1
      · rw [if_pos hc,
          dinsert_of_not_has acc p.2 (dget e_sec p.1) (hfresh p (List.mem_cons_self p rest))]
        have hstep : secDiffStep o_sec e_sec p = some (p.2, dget e_sec p.1) := by
          simp [secDiffStep, hc]
        rw [hstep]
        rw [ih (acc ++ [(p.2, dget e_sec p.1)]) hnd.2 ?fresh]
        · simp
        case fresh =>
          intro q hq
          have h1 : dhas acc q.2 = false := hfresh q (List.mem_cons_of_mem p hq)
          have h2 : q.2 ≠ p.2 := by
            intro he
            exact hnd.1 (he ▸ List.mem_map.mpr ⟨q, hq, rfl⟩)
          simp only [dhas, List.any_append, List.any_cons, List.any_nil, Bool.or_false,
            beq_iff_eq]
          simp only [dhas] at h1
          rw [h1]
          simp only [Bool.false_or]
          exact beq_eq_false_iff_ne.mpr (fun h => h2 (Eq.symm h))
      · rw [if_neg hc]
        have hstep : secDiffStep o_sec e_sec p = none := by
          simp only [secDiffStep]
          rw [if_neg hc]
        rw [hstep]
        exact ih acc hnd.2 (fun q hq => hfresh q (List.mem_cons_of_mem p hq))

theorem sec_diff_eq_filterMap (o_sec e_sec : Dict) (mapping : List (String × String))
    (hnd : (mapping.map Prod.snd).Nodup) :
    sec_diff o_sec e_sec mapping = mapping.filterMap (secDiffStep o_sec e_sec) := by
  have := sec_diff_foldl_eq o_sec e_sec mapping [] hnd (fun p _ => rfl)
  simpa [sec_diff] using this

theorem dkeys_filterMap_secDiffStep (o_sec e_sec : Dict) (mapping : List (String × String)) :
    ∀ k ∈ dkeys (mapping.filterMap (secDiffStep o_sec e_sec)), k ∈ mapping.map Prod.snd := by
  intro k hk
  simp only [dkeys, List.mem_map, List.mem_filterMap] at hk
  obtain ⟨q, ⟨p, hp, hstep⟩, rfl⟩ := hk
  simp only [secDiffStep] at hstep
  split at hstep
  · cases hstep
    exact List.mem_map.mpr ⟨p, hp, rfl⟩
  · cases hstep

theorem dfind_filterMap_secDiffStep (o_sec e_sec : Dict) :
    ∀ (mapping : List (String × String)), (mapping.map Prod.snd).Nodup →
      ∀ mk ck, (mk, ck) ∈ mapping →
        dfind (mapping.filterMap (secDiffStep o_sec e_sec)) ck =
          (secDiffStep o_sec e_sec (mk, ck)).map Prod.snd := by
  intro mapping
  induction mapping with
  | nil => intro _ mk ck h; cases h
  | cons p rest ih =>
      intro hnd mk ck hmem
      simp only [List.map_cons, List.nodup_cons] at hnd
      rcases List.mem_cons.mp hmem with heq | htail
      · subst heq
        simp only [List.filterMap_cons]
        cases hstep : secDiffStep o_sec e_sec (mk, ck) with
        | none =>
            have hck : ck ∉ rest.map Prod.snd := hnd.1
            have : dfind (rest.filterMap (secDiffStep o_sec e_sec)) ck = none :=
              dfind_eq_none_of_not_mem _ _
                (fun hmem' => hck (dkeys_filterMap_secDiffStep o_sec e_sec rest ck hmem'))
            simp [this]
        | some q =>
            have hq : q = (ck, dget e_sec mk) := by
              simp only [secDiffStep] at hstep
              split at hstep
              · cases hstep; rfl
              · cases hstep
            subst hq
            simp [dfind_cons]
      · have hne : p.2 ≠ ck := by
          intro he
          exact hnd.1 (he ▸ List.mem_map.mpr ⟨(mk, ck), htail, rfl⟩)
        simp only [List.filterMap_cons]
        cases hstep : secDiffStep o_sec e_sec p with
        | none => exact ih hnd.2 mk ck htail
        | some q =>
            have hq1 : q.1 = p.2 := by
              simp only [secDiffStep] at hstep
              split at hstep
              · cases hstep; rfl
              · cases hstep
            rw [dfind_cons, if_neg (hq1 ▸ hne)]
            exact ih hnd.2 mk ck htail

/-- C5: For every original section map, edited section map and field map
whose external keys are distinct (as all the engine's static field maps
are), the generic section diff binds `external_key` to the edited value iff
the edited value is non-null and differs from the original value (an absent
original reads as null and hence differs from every non-null edited value);
in particular a field whose edited value is absent/null never appears. -/
theorem sec_diff_spec (o_sec e_sec : Dict) (mapping : List (String × String))
    (hnd : (mapping.map Prod.snd).Nodup) (mk ck : String) (hmem : (mk, ck) ∈ mapping) :
    dfind (sec_diff o_sec e_sec mapping) ck =
      (if dget e_sec mk ≠ vNull ∧ dget o_sec mk ≠ dget e_sec mk
       then some (dget e_sec mk) else none) := by
  rw [sec_diff_eq_filterMap o_sec e_sec mapping hnd,
    dfind_filterMap_secDiffStep o_sec e_sec mapping hnd mk ck hmem]
  simp only [secDiffStep]
  by_cases hc : dget e_sec mk ≠ vNull ∧ dget o_sec mk ≠ dget e_sec mk
  · rw [if_pos hc, if_pos hc]; rfl
  · rw [if_neg hc, if_neg hc]; rfl

/-- Witness for C5 at a concrete input: an edited LoRa region differing from
the original appears in the changeset under `lora.region`. -/
theorem sec_diff_spec_witness :
    dfind (sec_diff [] [("region", vStr "US")] LORA_MAP) "lora.region" =
      some (vStr "US") := by
  have h := sec_diff_spec [] [("region", vStr "US")] LORA_MAP
    (by decide) "region" "lora.region" (by decide)
  rw [h]
  rfl

/-! ## C4: the delete list of the channel reconciler -/

theorem idxHas_iff (m : List (Int × MeshChannel)) (i : Int) :
    idxHas m i = true ↔ i ∈ m.map Prod.fst := by
  simp only [idxHas, List.any_eq_true, beq_iff_eq, List.mem_map]

theorem keys_idxInsert (m : List (Int × MeshChannel)) (k : Int) (c : MeshChannel) :
    (idxInsert m k c).map Prod.fst =
      if idxHas m k then m.map Prod.fst else m.map Prod.fst ++ [k] := by
  simp only [idxInsert, idxHas]
  by_cases h : m.any (fun p => p.1 == k) = true
  · rw [if_pos h, if_pos h, List.map_map]
    refine List.map_congr_left ?_
    intro p _
    simp only [Function.comp]
    by_cases hb : (p.1 == k) = true
    · rw [if_pos hb]
      exact (beq_iff_eq.mp hb).symm
    · rw [if_neg hb]
  · rw [if_neg h, if_neg h, List.map_append, List.map_cons, List.map_nil]

theorem mem_keys_byIdx_foldl (i : Int) :
    ∀ (cs : List MeshChannel) (m : List (Int × MeshChannel)),
      i ∈ ((cs.foldl (fun m c => idxInsert m c.index c) m).map Prod.fst) ↔
        (i ∈ m.map Prod.fst ∨ i ∈ cs.map MeshChannel.index) := by
  intro cs
  induction cs with
  | nil => intro m; simp
  | cons c rest ih =>
      intro m
      simp only [List.foldl_cons, List.map_cons, List.mem_cons]
      rw [ih (idxInsert m c.index c)]
      rw [keys_idxInsert]
      by_cases h : idxHas m c.index = true
      · rw [if_pos h]
        constructor
        · rintro (hm | hrest)
          · exact Or.inl hm
          · exact Or.inr (Or.inr hrest)
        · rintro (hm | rfl | hrest)
          · exact Or.inl hm
          · exact Or.inl ((idxHas_iff m _).mp h)
          · exact Or.inr hrest
      · rw [if_neg h]
        simp only [List.mem_append, List.mem_singleton]
        tauto

theorem mem_keys_byIdx (cs : List MeshChannel) (i : Int) :
    i ∈ ((byIdx cs).map Prod.fst) ↔ i ∈ cs.map MeshChannel.index := by
  rw [byIdx, mem_keys_byIdx_foldl]
  simp

/-- C4: the delete list of `_diff_channels` holds exactly the indices that
occur in the original list but not in the edited one — except index 0,
which is never deleted — and is sorted descending. -/
theorem diff_channels_deletes_spec (orig edit : List MeshChannel) :
    (∀ i : Int, i ∈ (diff_channels orig edit).deletes ↔
      (i ≠ 0 ∧ i ∈ orig.map MeshChannel.index ∧ i ∉ edit.map MeshChannel.index)) ∧
    (0 : Int) ∉ (diff_channels orig edit).deletes ∧
    List.Sorted (· ≥ ·) (diff_channels orig edit).deletes := by
  have hmem : ∀ i : Int, i ∈ (diff_channels orig edit).deletes ↔
      (i ≠ 0 ∧ i ∈ orig.map MeshChannel.index ∧ i ∉ edit.map MeshChannel.index) := by
    intro i
    simp only [diff_channels]
    rw [(List.perm_insertionSort (fun a b : Int => a ≥ b) _).mem_iff]
    rw [List.mem_filter]
    rw [mem_keys_byIdx orig i]
    simp only [decide_eq_true_eq]
    constructor
    · rintro ⟨h1, h2, h3⟩
      refine ⟨h2, h1, fun hc => h3 ?_⟩
      exact (idxHas_iff _ i).mpr ((mem_keys_byIdx edit i).mpr hc)
    · rintro ⟨h1, h2, h3⟩
      refine ⟨h2, h1, fun hc => h3 ?_⟩
      exact (mem_keys_byIdx edit i).mp ((idxHas_iff _ i).mp hc)
  refine ⟨hmem, ?_, ?_⟩
  · intro hc
    exact ((hmem 0).mp hc).1 rfl
  · simp only [diff_channels]
    exact List.sorted_insertionSort _ _

/-- Witness for C4: original holds indices 0 and 2, edited only 0; delete
list is exactly `[2]`. -/
theorem diff_channels_deletes_spec_witness :
    ((2 : Int) ∈ (diff_channels
        [{ index := 0 }, { index := 2, name := some "A" }] [{ index := 0 }]).deletes) ∧
    ((0 : Int) ∉ (diff_channels
        [{ index := 0 }, { index := 2, name := some "A" }] [{ index := 0 }]).deletes) := by
  have h := diff_channels_deletes_spec
    [{ index := 0 }, { index := 2, name := some "A" }] [{ index := 0 }]
  exact ⟨(h.1 2).mpr (by decide), h.2.1⟩

/-! ## C3: per-field characterization of channel upsert fields -/

theorem dfind_map_replace (k k' : String) (v : Value) :
    ∀ d : Dict, k ≠ k' →
      dfind (d.map (fun p => if p.1 == k then (k, v) else p)) k' = dfind d k' := by
  intro d hkk
  induction d with
  | nil => rfl
  | cons p d ih =>
      simp only [List.map_cons]
      by_cases hb : (p.1 == k) = true
      · rw [if_pos hb, dfind_cons, dfind_cons, if_neg hkk,
          if_neg (fun h => hkk ((beq_iff_eq.mp hb) ▸ h))]
        exact ih
      · rw [if_neg hb, dfind_cons, dfind_cons]
        by_cases h : p.1 = k'
        · rw [if_pos h, if_pos h]
        · rw [if_neg h, if_neg h]
          exact ih

theorem dfind_map_replace_self (k : String) (v : Value) :
    ∀ d : Dict, dhas d k = true →
      dfind (d.map (fun p => if p.1 == k then (k, v) else p)) k = some v := by
  intro d
  induction d with
  | nil => intro h; cases h
  | cons p d ih =>
      intro h
      simp only [List.map_cons]
      by_cases hb : (p.1 == k) = true
      · rw [if_pos hb, dfind_cons, if_pos rfl]
      · rw [if_neg hb, dfind_cons, if_neg (fun hh => hb (beq_iff_eq.mpr hh))]
        simp only [Bool.not_eq_true] at hb
        rw [dhas_cons, hb, Bool.false_or] at h
        exact ih h

theorem dfind_dinsert_self (d : Dict) (k : String) (v : Value) :
    dfind (dinsert d k v) k = some v := by
  simp only [dinsert]
  by_cases h : dhas d k = true
  · rw [if_pos h]
    exact dfind_map_replace_self k v d h
  · rw [if_neg h, dfind_append_right _ _ _ (fun hm => h ((dhas_iff_mem_dkeys d k).mpr hm))]
    rw [dfind_cons, if_pos rfl]

theorem dfind_append_single (k k' : String) (v : Value) (h : k ≠ k') :
    ∀ d : Dict, dfind (d ++ [(k, v)]) k' = dfind d k' := by
  intro d
  induction d with
  | nil =>
      have hb : (k == k') = false := beq_eq_false_iff_ne.mpr h
      simp [dfind, List.find?, hb]
  | cons p d ih =>
      rw [List.cons_append, dfind_cons, dfind_cons]
      by_cases hp : p.1 = k'
      · rw [if_pos hp, if_pos hp]
      · rw [if_neg hp, if_neg hp]
        exact ih

theorem dfind_dinsert_other (d : Dict) (k k' : String) (v : Value) (h : k ≠ k') :
    dfind (dinsert d k v) k' = dfind d k' := by
  simp only [dinsert]
  by_cases hh : dhas d k = true
  · rw [if_pos hh]
    exact dfind_map_replace k k' v d h
  · rw [if_neg hh]
    exact dfind_append_single k k' v h d

theorem chFieldStep_other (o : Option MeshChannel) (e : MeshChannel)
    (f : Dict) (p : String × String) (k : String) (h : p.2 ≠ k) :
    dfind (chFieldStep o e f p) k = dfind f k := by
  simp only [chFieldStep]
  split
  · rfl
  · split
    · rfl
    · split
      · exact dfind_dinsert_other f p.2 k _ h
      · rfl

theorem chFieldStep_uplink (o : Option MeshChannel) (e : MeshChannel) (f : Dict)
    (h : dfind f "uplink_enabled" = none) :
    dfind (chFieldStep o e f ("uplink_enabled", "uplink_enabled")) "uplink_enabled" =
      (match e.uplink_enabled with
       | none => none
       | some b =>
           if o.bind MeshChannel.uplink_enabled = none ∧ b = false then none
           else if o.bind MeshChannel.uplink_enabled ≠ some b then some (vBool b)
           else none) := by
  simp only [chFieldStep, chField, chGet]
  cases e.uplink_enabled with
  | none => simpa [optBool] using h
  | some b =>
      cases o with
      | none =>
          cases b <;>
            simp [optBool, dfind_dinsert_self, h, suppress_if_none_defaults, dhas, dget,
              List.find?]
      | some c =>
          cases hc : c.uplink_enabled with
          | none =>
              cases b <;>
                simp [chField, optBool, hc, dfind_dinsert_self, h,
                  suppress_if_none_defaults, dhas, dget, List.find?]
          | some b' =>
              cases b <;> cases b' <;>
                simp [chField, optBool, hc, dfind_dinsert_self, h,
                  suppress_if_none_defaults, dhas, dget, List.find?]

theorem chFieldStep_downlink (o : Option MeshChannel) (e : MeshChannel) (f : Dict)
    (h : dfind f "downlink_enabled" = none) :
    dfind (chFieldStep o e f ("downlink_enabled", "downlink_enabled")) "downlink_enabled" =
      (match e.downlink_enabled with
       | none => none
       | some b =>
           if o.bind MeshChannel.downlink_enabled = none ∧ b = false then none
           else if o.bind MeshChannel.downlink_enabled ≠ some b then some (vBool b)
           else none) := by
  simp only [chFieldStep, chField, chGet]
  cases e.downlink_enabled with
  | none => simpa [optBool] using h
  | some b =>
      cases o with
      | none =>
          cases b <;>
            simp [optBool, dfind_dinsert_self, h, suppress_if_none_defaults, dhas, dget,
              List.find?]
      | some c =>
          cases hc : c.downlink_enabled with
          | none =>
              cases b <;>
                simp [chField, optBool, hc, dfind_dinsert_self, h,
                  suppress_if_none_defaults, dhas, dget, List.find?]
          | some b' =>
              cases b <;> cases b' <;>
                simp [chField, optBool, hc, dfind_dinsert_self, h,
                  suppress_if_none_defaults, dhas, dget, List.find?]

theorem chFieldStep_precision (o : Option MeshChannel) (e : MeshChannel) (f : Dict)
    (h : dfind f "module_settings.position_precision" = none) :
    dfind (chFieldStep o e f ("position_precision", "module_settings.position_precision"))
        "module_settings.position_precision" =
      (match o with
       | none =>
           if e.position_precision = 0 then none
           else some (vInt e.position_precision)
       | some c =>
           if c.position_precision ≠ e.position_precision
           then some (vInt e.position_precision) else none) := by
  simp only [chFieldStep, chField, chGet]
  cases o with
  | none =>
      by_cases hz : e.position_precision = 0 <;>
        simp [hz, dfind_dinsert_self, h, suppress_if_none_defaults, dhas, dget, List.find?]
  | some c =>
      by_cases hne : c.position_precision = e.position_precision <;>
        simp [chField, hne, dfind_dinsert_self, h, suppress_if_none_defaults, dhas, dget,
          List.find?]

theorem channelFieldsBase_keys (o : Option MeshChannel) (e : MeshChannel) :
    ∀ k ∈ dkeys (channelFieldsBase o e), k = "psk" ∨ k = "name" := by
  intro k hk
  simp only [channelFieldsBase] at hk
  have hpsk : ∀ k' ∈ dkeys (if norm_text (o.bind MeshChannel.psk) ≠ norm_text e.psk
      then [("psk", vStr ((norm_text e.psk).getD "default"))] else ([] : Dict)),
      k' = "psk" := by
    intro k' hk'
    split at hk' <;> simp_all [dkeys]
  split at hk
  · split at hk
    · rcases dkeys_dinsert_subset _ _ _ k hk with h | h
      · exact Or.inl (hpsk k h)
      · exact Or.inr h
    · exact Or.inl (hpsk k hk)
  · exact Or.inl (hpsk k hk)

theorem channelFieldsBase_loopkey_none (o : Option MeshChannel) (e : MeshChannel)
    (k : String) (h1 : k ≠ "psk") (h2 : k ≠ "name") :
    dfind (channelFieldsBase o e) k = none := by
  refine dfind_eq_none_of_not_mem _ _ (fun hmem => ?_)
  rcases channelFieldsBase_keys o e k hmem with h | h
  · exact h1 h
  · exact h2 h

/-- Lookup of `uplink_enabled` in a channel's upsert fields. -/
theorem channelFields_uplink_spec (o : Option MeshChannel) (e : MeshChannel) :
    dfind (channelFields o e) "uplink_enabled" =
      (match e.uplink_enabled with
       | none => none
       | some b =>
           if o.bind MeshChannel.uplink_enabled = none ∧ b = false then none
           else if o.bind MeshChannel.uplink_enabled ≠ some b then some (vBool b)
           else none) := by
  simp only [channelFields, channelFieldPairs, List.foldl_cons, List.foldl_nil]
  rw [chFieldStep_other o e _ ("position_precision", "module_settings.position_precision")
    _ (by decide)]
  rw [chFieldStep_other o e _ ("downlink_enabled", "downlink_enabled") _ (by decide)]
  exact chFieldStep_uplink o e _
    (channelFieldsBase_loopkey_none o e _ (by decide) (by decide))

/-- Lookup of `downlink_enabled` in a channel's upsert fields. -/
theorem channelFields_downlink_spec (o : Option MeshChannel) (e : MeshChannel) :
    dfind (channelFields o e) "downlink_enabled" =
      (match e.downlink_enabled with
       | none => none
       | some b =>
           if o.bind MeshChannel.downlink_enabled = none ∧ b = false then none
           else if o.bind MeshChannel.downlink_enabled ≠ some b then some (vBool b)
           else none) := by
  simp only [channelFields, channelFieldPairs, List.foldl_cons, List.foldl_nil]
  rw [chFieldStep_other o e _ ("position_precision", "module_settings.position_precision")
    _ (by decide)]
  rw [chFieldStep_downlink o e _ ?hnone]
  case hnone =>
    rw [chFieldStep_other o e _ ("uplink_enabled", "uplink_enabled") _ (by decide)]
    exact channelFieldsBase_loopkey_none o e _ (by decide) (by decide)

/-- Lookup of `module_settings.position_precision` in a channel's upsert
fields. -/
theorem channelFields_precision_spec (o : Option MeshChannel) (e : MeshChannel) :
    dfind (channelFields o e) "module_settings.position_precision" =
      (match o with
       | none =>
           if e.position_precision = 0 then none
           else some (vInt e.position_precision)
       | some c =>
           if c.position_precision ≠ e.position_precision
           then some (vInt e.position_precision) else none) := by
  simp only [channelFields, channelFieldPairs, List.foldl_cons, List.foldl_nil]
  rw [chFieldStep_precision o e _ ?hnone]
  case hnone =>
    rw [chFieldStep_other o e _ ("downlink_enabled", "downlink_enabled") _ (by decide)]
    rw [chFieldStep_other o e _ ("uplink_enabled", "uplink_enabled") _ (by decide)]
    exact channelFieldsBase_loopkey_none o e _ (by decide) (by decide)

theorem upserts_foldl_spec (orig edit : List MeshChannel) :
    ∀ (l : List (Int × MeshChannel)) (acc : List Upsert),
      (∀ p ∈ l, p ∈ byIdx edit) →
      (∀ u ∈ acc, ∃ p ∈ byIdx edit,
        u.index = p.1 ∧ u.fields = channelFields (idxGet (byIdx orig) p.1) p.2 ∧
        u.fields ≠ []) →
      ∀ u ∈ l.foldl
        (fun acc p =>
          let fields := channelFields (idxGet (byIdx orig) p.1) p.2
          if fields ≠ [] then acc ++ [Upsert.mk p.1 fields] else acc)
        acc,
        ∃ p ∈ byIdx edit,
          u.index = p.1 ∧ u.fields = channelFields (idxGet (byIdx orig) p.1) p.2 ∧
          u.fields ≠ [] := by
  intro l
  induction l with
  | nil => intro acc _ hacc u hu; exact hacc u hu
  | cons p rest ih =>
      intro acc hl hacc u hu
      simp only [List.foldl_cons] at hu
      refine ih _ (fun q hq => hl q (List.mem_cons_of_mem p hq)) ?_ u hu
      intro u' hu'
      by_cases hf : channelFields (idxGet (byIdx orig) p.1) p.2 ≠ []
      · rw [if_pos hf] at hu'
        rcases List.mem_append.mp hu' with h | h
        · exact hacc u' h
        · rcases List.mem_singleton.mp h with rfl
          exact ⟨p, hl p (List.mem_cons_self p rest), rfl, rfl, hf⟩
      · rw [if_neg hf] at hu'
        exact hacc u' hu'

/-- C3: in the channel reconciler, `uplink_enabled`, `downlink_enabled` and
`position_precision` enter an index's upsert fields iff the edited value is
present and differs from the original, except that the entry is suppressed
when the original value is absent and the edited value equals the no-op
default (`false`, `false`, `0` respectively); and every entry of the
`upserts` list is an edited index whose field set, computed this way, is
non-empty. -/
theorem channel_reconciler_field_spec :
    (∀ (o : Option MeshChannel) (e : MeshChannel),
      dfind (channelFields o e) "uplink_enabled" =
        (match e.uplink_enabled with
         | none => none
         | some b =>
             if o.bind MeshChannel.uplink_enabled = none ∧ b = false then none
             else if o.bind MeshChannel.uplink_enabled ≠ some b then some (vBool b)
             else none) ∧
      dfind (channelFields o e) "downlink_enabled" =
        (match e.downlink_enabled with
         | none => none
         | some b =>
             if o.bind MeshChannel.downlink_enabled = none ∧ b = false then none
             else if o.bind MeshChannel.downlink_enabled ≠ some b then some (vBool b)
             else none) ∧
      dfind (channelFields o e) "module_settings.position_precision" =
        (match o with
         | none =>
             if e.position_precision = 0 then none
             else some (vInt e.position_precision)
         | some c =>
             if c.position_precision ≠ e.position_precision
             then some (vInt e.position_precision) else none)) ∧
    (∀ (orig edit : List MeshChannel), ∀ u ∈ (diff_channels orig edit).upserts,
      ∃ p ∈ byIdx edit,
        u.index = p.1 ∧ u.fields = channelFields (idxGet (byIdx orig) p.1) p.2 ∧
        u.fields ≠ []) := by
  constructor
  · intro o e
    exact ⟨channelFields_uplink_spec o e, channelFields_downlink_spec o e,
      channelFields_precision_spec o e⟩
  · intro orig edit u hu
    simp only [diff_channels] at hu
    refine upserts_foldl_spec orig edit _ [] ?_ (fun u' hu' => absurd hu' (List.not_mem_nil u'))
      u hu
    intro p hp
    exact (List.perm_insertionSort (fun a b => a.1 ≤ b.1) (byIdx edit)).mem_iff.mp hp

/-- Witness for C3: a fresh channel at index 1 with `uplink_enabled = true`
yields an upsert whose fields contain exactly that entry, and that upsert's
field set is non-empty. -/
theorem channel_reconciler_field_spec_witness :
    dfind (channelFields none { index := 1, uplink_enabled := some true })
        "uplink_enabled" = some (vBool true) ∧
    (Upsert.mk 1 [("uplink_enabled", vBool true)]).fields ≠ [] := by
  constructor
  · rw [(channel_reconciler_field_spec.1 none
      { index := 1, uplink_enabled := some true }).1]
    simp
  · obtain ⟨p, hp, h1, h2, h3⟩ :=
      channel_reconciler_field_spec.2 [] [{ index := 1, uplink_enabled := some true }]
        (Upsert.mk 1 [("uplink_enabled", vBool true)]) (by decide)
    exact h3

/-! ## C9: the Redactor -/

theorem mem_dinsert (d : Dict) (k : String) (v : Value) :
    ∀ p ∈ dinsert d k v, p ∈ d ∨ p = (k, v) := by
  intro p hp
  simp only [dinsert] at hp
  by_cases h : dhas d k = true
  · rw [if_pos h] at hp
    rcases List.mem_map.mp hp with ⟨q, hq, hfq⟩
    by_cases hb : (q.1 == k) = true
    · rw [if_pos hb] at hfq
      exact Or.inr hfq.symm
    · rw [if_neg hb] at hfq
      exact Or.inl (hfq ▸ hq)
  · rw [if_neg h] at hp
    rcases List.mem_append.mp hp with h1 | h1
    · exact Or.inl h1
    · exact Or.inr (List.mem_singleton.mp h1)

theorem dkeys_dinsert_of_has (d : Dict) (k : String) (v : Value)
    (h : dhas d k = true) : dkeys (dinsert d k v) = dkeys d := by
  simp only [dinsert, if_pos h, dkeys, List.map_map]
  refine List.map_congr_left ?_
  intro p _
  simp only [Function.comp]
  by_cases hb : (p.1 == k) = true
  · rw [if_pos hb]
    exact (beq_iff_eq.mp hb).symm
  · rw [if_neg hb]

theorem dkeys_dinsert_nodup (d : Dict) (k : String) (v : Value)
    (h : (dkeys d).Nodup) : (dkeys (dinsert d k v)).Nodup := by
  by_cases hh : dhas d k = true
  · rw [dkeys_dinsert_of_has d k v hh]
    exact h
  · rw [dinsert_of_not_has d k v (by simpa using hh), dkeys_append]
    simp only [dkeys, List.map_cons, List.map_nil]
    rw [List.nodup_append]
    refine ⟨h, List.nodup_singleton k, ?_⟩
    intro a ha hb
    rw [List.mem_singleton] at hb
    subst hb
    exact hh ((dhas_iff_mem_dkeys d a).mpr ha)

theorem redactEntries_keys_nodup :
    ∀ (d : List (String × Value)) (acc : Dict), (dkeys acc).Nodup →
      (dkeys (redactEntries acc d)).Nodup := by
  intro d
  induction d with
  | nil => intro acc h; simpa [redactEntries] using h
  | cons q rest ih =>
      intro acc h
      rw [redactEntries]
      by_cases hrk : q.1 ∈ REDACT_KEYS
      · rw [if_pos hrk]
        exact ih _ (dkeys_dinsert_nodup acc q.1 _ h)
      · rw [if_neg hrk]
        dsimp only
        by_cases hemp : (!isEmptyVal (redact q.2)) = true
        · rw [if_pos hemp]
          exact ih _ (dkeys_dinsert_nodup acc q.1 _ h)
        · rw [if_neg hemp]
          exact ih _ h

/-- The shape every entry of a redacted dictionary has: a secret key
carrying the marker, or a non-secret key carrying the non-empty redaction
of some value of the source dictionary. -/
def entryShape (S : List Value) (p : String × Value) : Prop :=
  (p.1 ∈ REDACT_KEYS ∧ p.2 = vStr "<redacted>") ∨
  (p.1 ∉ REDACT_KEYS ∧ ∃ v ∈ S, p.2 = redact v ∧ isEmptyVal p.2 = false)

theorem redactEntries_shape :
    ∀ (d : List (String × Value)) (acc : Dict) (S : List Value),
      (∀ q ∈ d, q.2 ∈ S) → (∀ p ∈ acc, entryShape S p) →
      ∀ p ∈ redactEntries acc d, entryShape S p := by
  intro d
  induction d with
  | nil => intro acc S _ hacc p hp; exact hacc p (by simpa [redactEntries] using hp)
  | cons q rest ih =>
      intro acc S hd hacc p hp
      rw [redactEntries] at hp
      by_cases hrk : q.1 ∈ REDACT_KEYS
      · rw [if_pos hrk] at hp
        refine ih _ S (fun r hr => hd r (List.mem_cons_of_mem q hr)) ?_ p hp
        intro p' hp'
        rcases mem_dinsert acc q.1 (vStr "<redacted>") p' hp' with h | h
        · exact hacc p' h
        · subst h
          left
          exact ⟨hrk, rfl⟩
      · rw [if_neg hrk] at hp
        dsimp only at hp
        by_cases hemp : (!isEmptyVal (redact q.2)) = true
        · rw [if_pos hemp] at hp
          refine ih _ S (fun r hr => hd r (List.mem_cons_of_mem q hr)) ?_ p hp
          intro p' hp'
          rcases mem_dinsert acc q.1 (redact q.2) p' hp' with h | h
          · exact hacc p' h
          · subst h
            right
            refine ⟨hrk, q.2, hd q (List.mem_cons_self q rest), rfl, ?_⟩
            simpa using hemp
        · rw [if_neg hemp] at hp
          exact ih _ S (fun r hr => hd r (List.mem_cons_of_mem q hr)) hacc p hp

/-- The per-entry decision of the dictionary branch of `_redact`. -/
def redactStep (p : String × Value) : Option (String × Value) :=
  if p.1 ∈ REDACT_KEYS then some (p.1, vStr "<redacted>")
  else if isEmptyVal (redact p.2) = false then some (p.1, redact p.2)
  else none

theorem redactEntries_eq_filterMap :
    ∀ (d : List (String × Value)) (acc : Dict), (dkeys d).Nodup →
      (∀ q ∈ d, dhas acc q.1 = false) →
      redactEntries acc d = acc ++ d.filterMap redactStep := by
  intro d
  induction d with
  | nil => intro acc _ _; simp [redactEntries]
  | cons q rest ih =>
      intro acc hnd hfresh
      have h0 : dkeys (q :: rest) = q.1 :: dkeys rest := by simp [dkeys]
      rw [h0] at hnd
      obtain ⟨hq1, hndr⟩ := List.nodup_cons.mp hnd
      have hfreshq : dhas acc q.1 = false := hfresh q (List.mem_cons_self q rest)
      have hfresh' : ∀ (newv : Value) (r : String × Value), r ∈ rest →
          dhas (acc ++ [(q.1, newv)]) r.1 = false := by
        intro newv r hr
        simp only [dhas, List.any_append, List.any_cons, List.any_nil, Bool.or_false,
          beq_iff_eq]
        have h1 : dhas acc r.1 = false := hfresh r (List.mem_cons_of_mem q hr)
        simp only [dhas] at h1
        rw [h1, Bool.false_or]
        exact beq_eq_false_iff_ne.mpr
          (fun he => hq1 (he ▸ List.mem_map.mpr ⟨r, hr, rfl⟩))
      rw [redactEntries, List.filterMap_cons]
      by_cases hrk : q.1 ∈ REDACT_KEYS
      · rw [if_pos hrk]
        have : redactStep q = some (q.1, vStr "<redacted>") := by
          simp [redactStep, hrk]
        rw [this, dinsert_of_not_has acc q.1 _ hfreshq,
          ih (acc ++ [(q.1, vStr "<redacted>")]) hndr (hfresh' _)]
        simp
      · rw [if_neg hrk]
        by_cases hemp : isEmptyVal (redact q.2) = true
        · have hstep : redactStep q = none := by
            simp [redactStep, hrk, hemp]
          rw [if_neg (by simpa using hemp), hstep,
            ih acc hndr (fun r hr => hfresh r (List.mem_cons_of_mem q hr))]
        · have hstep : redactStep q = some (q.1, redact q.2) := by
            simp [redactStep, hrk, hemp]
          rw [if_pos (by simpa using hemp), hstep,
            dinsert_of_not_has acc q.1 _ hfreshq,
            ih (acc ++ [(q.1, redact q.2)]) hndr (hfresh' _)]
          simp

theorem filterMap_id_of_forall {α : Type} (f : α → Option α) :
    ∀ l : List α, (∀ p ∈ l, f p = some p) → l.filterMap f = l := by
  intro l
  induction l with
  | nil => intro _; rfl
  | cons a l ih =>
      intro h
      rw [List.filterMap_cons, h a (List.mem_cons_self a l),
        ih (fun p hp => h p (List.mem_cons_of_mem a hp))]

theorem redactItems_eq_map : ∀ l : List Value, redactItems l = l.map redact := by
  intro l
  induction l with
  | nil => simp [redactItems]
  | cons a l ih => rw [redactItems, ih, List.map_cons]

theorem redactEntries_marker :
    ∀ (d : List (String × Value)) (acc : Dict) (k : String), k ∈ REDACT_KEYS →
      (dhas d k = true ∨ dfind acc k = some (vStr "<redacted>")) →
      dfind (redactEntries acc d) k = some (vStr "<redacted>") := by
  intro d
  induction d with
  | nil =>
      intro acc k hk hor
      rcases hor with h | h
      · cases h
      · simpa [redactEntries] using h
  | cons q rest ih =>
      intro acc k hk hor
      rw [redactEntries]
      by_cases hrk : q.1 ∈ REDACT_KEYS
      · rw [if_pos hrk]
        by_cases hqk : q.1 = k
        · subst hqk
          exact ih _ _ hk (Or.inr (dfind_dinsert_self acc _ _))
        · refine ih _ k hk ?_
          rcases hor with h | h
          · rw [dhas_cons, beq_eq_false_iff_ne.mpr hqk, Bool.false_or] at h
            exact Or.inl h
          · exact Or.inr ((dfind_dinsert_other acc q.1 k _ hqk).symm ▸ h)
      · rw [if_neg hrk]
        dsimp only
        have hqk : q.1 ≠ k := fun he => hrk (he ▸ hk)
        have hor' : dhas rest k = true ∨ dfind acc k = some (vStr "<redacted>") := by
          rcases hor with h | h
          · rw [dhas_cons, beq_eq_false_iff_ne.mpr hqk, Bool.false_or] at h
            exact Or.inl h
          · exact Or.inr h
        by_cases hemp : (!isEmptyVal (redact q.2)) = true
        · rw [if_pos hemp]
          refine ih _ k hk ?_
          rcases hor' with h | h
          · exact Or.inl h
          · exact Or.inr ((dfind_dinsert_other acc q.1 k _ hqk).symm ▸ h)
        · rw [if_neg hemp]
          exact ih _ k hk hor'

theorem redact_idem_aux :
    ∀ (n : Nat) (v : Value), sizeOf v ≤ n → redact (redact v) = redact v := by
  intro n
  induction n with
  | zero =>
      intro v hv
      exfalso
      cases v <;> simp at hv
  | succ n ih =>
      intro v hv
      cases v with
      | vNull => have h : redact vNull = vNull := by rw [redact]
                 rw [h, h]
      | vBool b => have h : redact (vBool b) = vBool b := by rw [redact]
                   rw [h, h]
      | vInt m => have h : redact (vInt m) = vInt m := by rw [redact]
                  rw [h, h]
      | vStr s => have h : redact (vStr s) = vStr s := by rw [redact]
                  rw [h, h]
      | vList items =>
          have hL : redact (vList items) =
              vList ((items.map redact).filter (fun item => !isEmptyVal item)) := by
            rw [redact, redactItems_eq_map]
          have hL2 : redact (vList ((items.map redact).filter (fun item => !isEmptyVal item))) =
              vList ((((items.map redact).filter (fun item => !isEmptyVal item)).map
                redact).filter (fun item => !isEmptyVal item)) := by
            rw [redact, redactItems_eq_map]
          rw [hL, hL2]
          congr 1
          have hfix : ∀ x ∈ (items.map redact).filter (fun item => !isEmptyVal item),
              redact x = x := by
            intro x hx
            obtain ⟨y, hy, hyx⟩ := List.mem_map.mp (List.mem_filter.mp hx).1
            have hsy : sizeOf y ≤ n := by
              have h1 : sizeOf y < sizeOf items := List.sizeOf_lt_of_mem hy
              have h2 : sizeOf (Value.vList items) = 1 + sizeOf items := by simp
              omega
            rw [← hyx]
            exact ih y hsy
          rw [List.map_congr_left hfix, List.map_id']
          refine List.filter_eq_self.mpr ?_
          intro x hx
          exact (List.mem_filter.mp hx).2
      | vDict es =>
          have h1 : redact (vDict es) = vDict (redactEntries [] es) := by rw [redact]
          have hnodupD : (dkeys (redactEntries [] es)).Nodup :=
            redactEntries_keys_nodup es [] (by simp [dkeys])
          have hshape : ∀ p ∈ redactEntries [] es, entryShape (es.map Prod.snd) p :=
            redactEntries_shape es [] _ (fun q hq => List.mem_map.mpr ⟨q, hq, rfl⟩)
              (fun p hp => absurd hp (List.not_mem_nil p))
          have h2 : redact (vDict (redactEntries [] es)) =
              vDict (redactEntries [] (redactEntries [] es)) := by rw [redact]
          rw [h1, h2]
          congr 1
          rw [redactEntries_eq_filterMap (redactEntries [] es) [] hnodupD (fun q hq => rfl)]
          rw [List.nil_append]
          refine filterMap_id_of_forall _ _ ?_
          intro p hp
          rcases hshape p hp with ⟨hk, hm⟩ | ⟨hk, v, hv, hpv, hne⟩
          · simp [redactStep, hk, ← hm]
          · obtain ⟨q, hq, hqv⟩ := List.mem_map.mp hv
            have hq2 : sizeOf q < sizeOf es := List.sizeOf_lt_of_mem hq
            have hq3 : sizeOf q.2 < sizeOf q := by
              obtain ⟨a, b⟩ := q
              simp only [Prod.mk.sizeOf_spec]
              omega
            have hsz : sizeOf v ≤ n := by
              have hds : sizeOf (Value.vDict es) = 1 + sizeOf es := by simp
              rw [← hqv]
              omega
            have hfix : redact p.2 = p.2 := by
              rw [hpv, ih v hsz, ← hpv]
            have hstep : redactStep p = some (p.1, redact p.2) := by
              simp [redactStep, hk, hfix, hne]
            rw [hstep, hfix]

def dictEntriesOf : Value → Dict
  | vDict d => d
  | _ => []

def listItemsOf : Value → List Value
  | vList l => l
  | _ => []

/-- C9: the Redactor replaces the value under any secret key by the fixed
marker, rebuilds dictionaries and lists so that no empty value survives,
passes scalars through unchanged, and is idempotent on every value. -/
theorem redactor_spec :
    (∀ (d : List (String × Value)) (k : String), k ∈ REDACT_KEYS → dhas d k = true →
      dfind (dictEntriesOf (redact (vDict d))) k = some (vStr "<redacted>")) ∧
    (∀ (d : List (String × Value)), ∀ p ∈ dictEntriesOf (redact (vDict d)),
      isEmptyVal p.2 = false) ∧
    (∀ (l : List Value), ∀ x ∈ listItemsOf (redact (vList l)), isEmptyVal x = false) ∧
    (redact vNull = vNull ∧ (∀ b, redact (vBool b) = vBool b) ∧
      (∀ m : Int, redact (vInt m) = vInt m) ∧ (∀ s, redact (vStr s) = vStr s)) ∧
    (∀ v : Value, redact (redact v) = redact v) := by
  have hdict : ∀ d : List (String × Value),
      redact (vDict d) = vDict (redactEntries [] d) := fun d => by rw [redact]
  have hlist : ∀ l : List Value,
      redact (vList l) = vList ((redactItems l).filter (fun item => !isEmptyVal item)) :=
    fun l => by rw [redact]
  refine ⟨?_, ?_, ?_, ⟨by rw [redact], fun b => by rw [redact], fun m => by rw [redact],
    fun s => by rw [redact]⟩, ?_⟩
  · intro d k hk hhas
    rw [hdict d]
    exact redactEntries_marker d [] k hk (Or.inl hhas)
  · intro d p hp
    rw [hdict d] at hp
    rcases redactEntries_shape d [] (d.map Prod.snd)
        (fun q hq => List.mem_map.mpr ⟨q, hq, rfl⟩)
        (fun p hp => absurd hp (List.not_mem_nil p)) p hp with ⟨_, hm⟩ | ⟨_, _, _, _, hne⟩
    · rw [hm]
      decide
    · exact hne
  · intro l x hx
    rw [hlist l] at hx
    have := (List.mem_filter.mp hx).2
    simpa using this
  · intro v
    exact redact_idem_aux (sizeOf v) v le_rfl

/-- Witness for C9: a concrete secret entry is masked, and a concrete nested
value is a fixed point of double redaction. -/
theorem redactor_spec_witness :
    dfind (dictEntriesOf (redact (vDict [("psk", vStr "secret"), ("x", vStr "k")]))) "psk" =
      some (vStr "<redacted>") ∧
    redact (redact (vDict [("psk", vStr "secret"), ("x", vList [vNull, vInt 3])])) =
      redact (vDict [("psk", vStr "secret"), ("x", vList [vNull, vInt 3])]) :=
  ⟨redactor_spec.1 [("psk", vStr "secret"), ("x", vStr "k")] "psk" (by decide) (by decide),
   redactor_spec.2.2.2.2 (vDict [("psk", vStr "secret"), ("x", vList [vNull, vInt 3])])⟩

/-! ## C10: redaction before logging never touches the executed arguments -/

/-- C10: `_run_cli_logged` hands the external tool the original argument
list unchanged — the redacted copy produced by `_sanitize_args` appears only
in the logged line — and `_sanitize_args` does redact PSK values (so log
and executed command genuinely differ on them). -/
theorem run_cli_logged_frame_spec :
    (∀ (env : Env) (sec : String) (args : List String) (t : ℚ),
      (run_cli_logged env sec args t).1 = env.cli args ∧
      (run_cli_logged env sec args t).2 =
        [Eff.logCmd ("meshtastic " ++ " ".intercalate (sanitize_args args)),
         Eff.execCli args t]) ∧
    sanitize_args ["--ch-set", "psk", "base64:KEY"] =
      ["--ch-set", "psk", "base64:<redacted>"] := by
  constructor
  · intro env sec args t
    exact ⟨rfl, rfl⟩
  · have hsw : pyStartsWith "base64:KEY" "base64:" = true := by decide
    rw [sanitize_args, sanitizeLoop]
    norm_num [argAt, redact_value, hsw]
    rw [sanitizeLoop]
    norm_num

/-- Witness for C10 at a concrete environment and argument list. -/
theorem run_cli_logged_frame_spec_witness :
    (run_cli_logged { cli := fun _ => { returncode := 0 } } "channels"
        ["--ch-set", "psk", "base64:KEY"] 20).2 =
      [Eff.logCmd "meshtastic --ch-set psk base64:<redacted>",
       Eff.execCli ["--ch-set", "psk", "base64:KEY"] 20] := by
  rw [(run_cli_logged_frame_spec.1 { cli := fun _ => { returncode := 0 } } "channels"
    ["--ch-set", "psk", "base64:KEY"] 20).2]
  rw [run_cli_logged_frame_spec.2]
  rfl

/-! ## C6: empty changesets -/

/-- A constant environment in which every CLI invocation succeeds. -/
def okEnv : Env := { cli := fun _ => { returncode := 0 } }

/-- Counterexample to C6 as stated: the device executor has no emptiness
guard — `next(iter(changes.keys()))` on an empty changeset raises
`StopIteration` (modelled as `none`) instead of returning `no_change`. -/
theorem exec_device_empty_raises : exec_device okEnv [] = none := rfl

/-- C6 (amended): every section executor except the device one returns
`no_change` on an empty changeset/plan without emitting any effect (no
argument list is built, no external process runs); the device executor
instead requires a non-empty changeset (its only call site guards payload
truthiness) and then always produces a result. -/
theorem empty_changeset_no_change_spec :
    (∀ (env : Env) (sec : String) (bool_keys : List String),
      exec_generic env sec [] bool_keys = (SecRes.simple "no_change", [])) ∧
    (∀ env : Env, exec_owner env [] = (SecRes.simple "no_change", [])) ∧
    (∀ env : Env, exec_channels env (ChannelPlan.mk [] []) =
      (SecRes.chan "no_change" [] [], [])) ∧
    (∀ (env : Env) (d : Dict), d ≠ [] → (exec_device env d).isSome = true) := by
  refine ⟨fun env sec bool_keys => rfl, fun env => rfl, fun env => rfl, ?_⟩
  intro env d hd
  match d with
  | [] => exact absurd rfl hd
  | (k, v) :: rest => rfl

/-- Witness for C6 (amended) at a non-empty device changeset. -/
theorem empty_changeset_no_change_spec_witness :
    (exec_device okEnv [("device.role", vStr "ROUTER")]).isSome = true := by
  exact empty_changeset_no_change_spec.2.2.2 okEnv [("device.role", vStr "ROUTER")]
    (by decide)

/-! ## C2: abort-on-failure sequencing -/

/-- A plan entry that does not abort the loop: either skipped (falsy
payload) or executed with outcome `success`/`no_change`. -/
def SoftEntry (env : Env) (e : String × Payload) : Prop :=
  e.2.truthy = false ∨ ∃ r tr, callExec env e = some (r, tr) ∧
    (r.status = "success" ∨ r.status = "no_change")

theorem applyLoop_soft_prefix (env : Env) :
    ∀ (pre rest : List (String × Payload)) (acc : LoopAcc),
      (∀ e ∈ pre, SoftEntry env e) →
      ∃ secs tr succ,
        applyLoop env (pre ++ rest) acc =
          applyLoop env rest
            { sections := acc.sections ++ secs, errors := acc.errors,
              status := acc.status, anySuccess := succ, trace := acc.trace ++ tr,
              exc := acc.exc } ∧
        (∀ p ∈ secs, p.1 ∈ pre.map Prod.fst) := by
  intro pre
  induction pre with
  | nil =>
      intro rest acc _
      refine ⟨[], [], acc.anySuccess, ?_, fun p hp => absurd hp (List.not_mem_nil p)⟩
      have hacc : LoopAcc.mk (acc.sections ++ []) acc.errors acc.status
          acc.anySuccess (acc.trace ++ []) acc.exc = acc := by
        cases acc
        simp
      rw [List.nil_append, hacc]
  | cons e pre' ih =>
      intro rest acc hsoft
      rw [List.cons_append, applyLoop]
      by_cases htr : e.2.truthy = true
      · rw [if_neg (by rw [htr]; decide)]
        rcases hsoft e (List.mem_cons_self e pre') with hskip | ⟨r, tr₀, hcall, hstat⟩
        · rw [htr] at hskip
          cases hskip
        · rw [hcall]
          dsimp only
          rcases hstat with hs | hs
          · rw [if_pos hs]
            obtain ⟨secs', tr', succ', heq, hsub⟩ := ih rest
              { acc with
                  sections := acc.sections ++ [(e.1, r)]
                  trace := acc.trace ++ tr₀
                  anySuccess := true }
              (fun x hx => hsoft x (List.mem_cons_of_mem e hx))
            refine ⟨(e.1, r) :: secs', tr₀ ++ tr', succ', ?_, ?_⟩
            · rw [heq]
              congr 1
              simp [List.append_assoc]
            · intro p hp
              rcases List.mem_cons.mp hp with rfl | hp'
              · exact List.mem_cons_self _ _
              · exact List.mem_cons_of_mem _ (hsub p hp')
          · have hns : ¬ r.status = "success" := by
              rw [hs]; decide
            have hnc : ¬ r.status ≠ "no_change" := by
              rw [hs]; exact fun h => h rfl
            rw [if_neg hns, if_neg hnc]
            obtain ⟨secs', tr', succ', heq, hsub⟩ := ih rest
              { acc with
                  sections := acc.sections ++ [(e.1, r)]
                  trace := acc.trace ++ tr₀ }
              (fun x hx => hsoft x (List.mem_cons_of_mem e hx))
            refine ⟨(e.1, r) :: secs', tr₀ ++ tr', succ', ?_, ?_⟩
            · rw [heq]
              congr 1
              simp [List.append_assoc]
            · intro p hp
              rcases List.mem_cons.mp hp with rfl | hp'
              · exact List.mem_cons_self _ _
              · exact List.mem_cons_of_mem _ (hsub p hp')
      · rw [if_pos (by simp only [Bool.not_eq_true] at htr; rw [htr]; rfl)]
        obtain ⟨secs, tr, succ, heq, hsub⟩ :=
          ih rest acc (fun x hx => hsoft x (List.mem_cons_of_mem e hx))
        exact ⟨secs, tr, succ, heq, fun p hp => List.mem_cons_of_mem e.1 (hsub p hp)⟩

theorem applyLoop_hard_head (env : Env) (s : String) (p : Payload)
    (rest : List (String × Payload)) (acc : LoopAcc) (r : SecRes) (tr₀ : List Eff)
    (htruthy : p.truthy = true) (hcall : callExec env (s, p) = some (r, tr₀))
    (hs1 : r.status ≠ "success") (hs2 : r.status ≠ "no_change") :
    applyLoop env ((s, p) :: rest) acc =
      { sections := acc.sections ++ [(s, r)], errors := acc.errors ++ [(s, r)],
        status := "error", anySuccess := acc.anySuccess,
        trace := acc.trace ++ tr₀, exc := acc.exc } := by
  rw [applyLoop, if_neg (by rw [htruthy]; decide), hcall]
  dsimp only
  rw [if_neg hs1, if_pos hs2]

/-- Lookup in the report's section map (`report["sections"][name]`). -/
def sresLookup (l : List (String × SecRes)) (n : String) : Option SecRes :=
  match l.find? (fun p => p.1 == n) with
  | some p => some p.2
  | none => none

def sectionsOf (x : Option Report × List Eff) : List (String × SecRes) :=
  match x.1 with
  | some rep => rep.sections
  | none => []

def statusOf (x : Option Report × List Eff) : Option String :=
  x.1.map Report.status

def errorsOf (x : Option Report × List Eff) : List ErrEntry :=
  match x.1 with
  | some rep => rep.errors.getD []
  | none => []

def postSnapshotOf (x : Option Report × List Eff) : Option DeviceModel :=
  match x.1 with
  | some rep => rep.post_snapshot
  | none => none

theorem sresLookup_nil (n : String) : sresLookup [] n = none := rfl

theorem sresLookup_cons (q : String × SecRes) (l : List (String × SecRes)) (n : String) :
    sresLookup (q :: l) n = if q.1 = n then some q.2 else sresLookup l n := by
  by_cases h : q.1 = n
  · simp [sresLookup, List.find?, h]
  · have hb : (q.1 == n) = false := beq_eq_false_iff_ne.mpr h
    simp [sresLookup, List.find?, hb, h]

theorem sresLookup_append_right (l1 l2 : List (String × SecRes)) (n : String)
    (h : ∀ q ∈ l1, q.1 ≠ n) : sresLookup (l1 ++ l2) n = sresLookup l2 n := by
  induction l1 with
  | nil => rfl
  | cons q l1 ih =>
      rw [List.cons_append, sresLookup_cons,
        if_neg (h q (List.mem_cons_self q l1))]
      exact ih (fun q' hq' => h q' (List.mem_cons_of_mem q hq'))

theorem sresLookup_eq_none (l : List (String × SecRes)) (n : String)
    (h : ∀ q ∈ l, q.1 ≠ n) : sresLookup l n = none := by
  induction l with
  | nil => rfl
  | cons q l ih =>
      rw [sresLookup_cons, if_neg (h q (List.mem_cons_self q l))]
      exact ih (fun q' hq' => h q' (List.mem_cons_of_mem q hq'))

/-- C2: when the sections before `s` in the fixed execution order are all
skipped or soft (`success`/`no_change`), `s` is executed and its result has
status `error` or `timeout`, the orchestrator records `s`'s result, appends
it to the error list, sets the overall status to `error`, and produces no
section result at all for any section after `s`. -/
theorem apply_abort_spec (env : Env) (diff : Diff)
    (pre post : List (String × Payload)) (s : String) (p : Payload) (r : SecRes)
    (hplan : executionPlan diff = pre ++ (s, p) :: post)
    (hnd : ((pre ++ (s, p) :: post).map Prod.fst).Nodup)
    (hsoft : ∀ e ∈ pre, SoftEntry env e)
    (htruthy : p.truthy = true)
    (hcall : (callExec env (s, p)).map Prod.fst = some r)
    (hfail : r.status = "error" ∨ r.status = "timeout") :
    statusOf (apply_diff env diff) = some "error" ∧
    sresLookup (sectionsOf (apply_diff env diff)) s = some r ∧
    ErrEntry.sec s r ∈ errorsOf (apply_diff env diff) ∧
    ∀ t ∈ post.map Prod.fst, sresLookup (sectionsOf (apply_diff env diff)) t = none := by
  -- extract the executed result and its trace
  obtain ⟨q, hq, hq1⟩ : ∃ q, callExec env (s, p) = some q ∧ q.1 = r := by
    cases hc : callExec env (s, p) with
    | none => rw [hc] at hcall; cases hcall
    | some q =>
        rw [hc] at hcall
        exact ⟨q, rfl, Option.some.injEq _ _ ▸ (by simpa using hcall)⟩
  have hs1 : r.status ≠ "success" := by
    rcases hfail with h | h <;> rw [h] <;> decide
  have hs2 : r.status ≠ "no_change" := by
    rcases hfail with h | h <;> rw [h] <;> decide
  -- name facts from nodup
  rw [List.map_append, List.map_cons] at hnd
  rw [List.nodup_append] at hnd
  obtain ⟨hndPre, hndCons, hdisj⟩ := hnd
  have hsPre : s ∉ pre.map Prod.fst := fun hmem =>
    hdisj hmem (List.mem_cons_self s (post.map Prod.fst))
  have hpostPre : ∀ t ∈ post.map Prod.fst, t ∉ pre.map Prod.fst := fun t ht hmem =>
    hdisj hmem (List.mem_cons_of_mem s ht)
  have hpostS : ∀ t ∈ post.map Prod.fst, t ≠ s := fun t ht he =>
    (List.nodup_cons.mp hndCons).1 (he ▸ ht)
  -- the loop result
  obtain ⟨secs, tr, succ, hloopEq, hsub⟩ :=
    applyLoop_soft_prefix env pre ((s, p) :: post) {} hsoft
  dsimp only at hloopEq
  rw [List.nil_append, List.nil_append] at hloopEq
  have hhard := applyLoop_hard_head env s p post
    { sections := secs, errors := [], status := "ok", anySuccess := succ,
      trace := tr, exc := false } q.1 q.2 htruthy (by rw [hq]) (hq1 ▸ hs1)
    (hq1 ▸ hs2)
  dsimp only at hhard
  have hloop : applyLoop env (executionPlan diff) {} =
      { sections := secs ++ [(s, r)], errors := [(s, r)], status := "error",
        anySuccess := succ, trace := tr ++ q.2, exc := false } := by
    rw [hplan, hloopEq, hhard, hq1]
    rw [List.nil_append]
  -- facts about the final sections list
  have hsecs_names : ∀ q' ∈ secs ++ [(s, r)], q'.1 ∈ pre.map Prod.fst ∨ q'.1 = s := by
    intro q' hq'
    rcases List.mem_append.mp hq' with h | h
    · exact Or.inl (hsub q' h)
    · rcases List.mem_singleton.mp h with rfl
      exact Or.inr rfl
  have hlookupS : sresLookup (secs ++ [(s, r)]) s = some r := by
    rw [sresLookup_append_right secs [(s, r)] s
      (fun q' hq' hqs => hsPre (hqs ▸ hsub q' hq'))]
    rw [sresLookup_cons, if_pos rfl]
  have hlookupPost : ∀ t ∈ post.map Prod.fst,
      sresLookup (secs ++ [(s, r)]) t = none := by
    intro t ht
    refine sresLookup_eq_none _ t ?_
    intro q' hq' hqt
    rcases hsecs_names q' hq' with h | h
    · exact hpostPre t ht (hqt ▸ h)
    · exact hpostS t ht (hqt ▸ h)
  -- unfold apply_diff
  simp only [apply_diff, hloop]
  by_cases hrc : env.reconnectOk = true
  · simp only [hrc, if_true, if_neg (by decide : ¬ false = true)]
    refine ⟨rfl, ?_, ?_, ?_⟩
    · simpa [sectionsOf] using hlookupS
    · simp [errorsOf]
    · intro t ht
      simpa [sectionsOf] using hlookupPost t ht
  · simp only [Bool.not_eq_true] at hrc
    simp only [hrc, if_neg (by decide : ¬ false = true)]
    refine ⟨rfl, ?_, ?_, ?_⟩
    · simpa [sectionsOf] using hlookupS
    · simp [errorsOf]
    · intro t ht
      simpa [sectionsOf] using hlookupPost t ht

/-- An environment whose external tool always fails with exit status 1. -/
def errEnv : Env := { cli := fun _ => { returncode := 1 } }

/-- A diff touching only the device role. -/
def abortDiff : Diff := { device := [("device.role", vStr "ROUTER")] }

/-- Witness for C2: with a failing tool and a device-only diff, the report
status is `error`, the device section carries the error result, and the
next section (`owner`) has no section result. -/
theorem apply_abort_spec_witness :
    statusOf (apply_diff errEnv abortDiff) = some "error" ∧
    sresLookup (sectionsOf (apply_diff errEnv abortDiff)) "device" =
      some (to_section_result { returncode := 1 } ["device.role"]) ∧
    sresLookup (sectionsOf (apply_diff errEnv abortDiff)) "owner" = none := by
  have h := apply_abort_spec errEnv abortDiff []
    [("owner", .dict []), ("lora", .dict []), ("power", .dict []),
     ("position", .dict []), ("display", .dict []), ("bluetooth", .dict []),
     ("network", .dict []), ("channels", .plan (ChannelPlan.mk [] [])),
     ("modules", .dict [])]
    "device" (.dict [("device.role", vStr "ROUTER")])
    (to_section_result { returncode := 1 } ["device.role"])
    rfl (by decide) (fun e he => absurd he (List.not_mem_nil e)) rfl rfl (Or.inl rfl)
  exact ⟨h.1, h.2.1, h.2.2.2 "owner" (by decide)⟩

/-! ## C8: reboot expectation and the settle wait -/

theorem dkeys_sec_diff_sub (o_sec e_sec : Dict) :
    ∀ (mapping : List (String × String)) (acc : Dict),
      ∀ k ∈ dkeys (mapping.foldl
        (fun out p =>
          let ov := dget o_sec p.1
          let ev := dget e_sec p.1
          if ev ≠ vNull ∧ ov ≠ ev then dinsert out p.2 ev else out)
        acc),
      k ∈ dkeys acc ∨ k ∈ mapping.map Prod.snd := by
  intro mapping
  induction mapping with
  | nil => intro acc k hk; exact Or.inl hk
  | cons p rest ih =>
      intro acc k hk
      rw [List.foldl_cons] at hk
      rcases ih _ k hk with h | h
      · by_cases hc : dget e_sec p.1 ≠ vNull ∧ dget o_sec p.1 ≠ dget e_sec p.1
        · rw [if_pos hc] at h
          rcases dkeys_dinsert_subset acc p.2 _ k h with h' | h'
          · exact Or.inl h'
          · exact Or.inr (h' ▸ List.mem_cons_self p.2 (rest.map Prod.snd))
        · rw [if_neg hc] at h
          exact Or.inl h
      · exact Or.inr (List.mem_cons_of_mem _ h)

theorem sec_diff_keys_sub (o_sec e_sec : Dict) (mapping : List (String × String)) :
    ∀ k ∈ dkeys (sec_diff o_sec e_sec mapping), k ∈ mapping.map Prod.snd := by
  intro k hk
  rcases dkeys_sec_diff_sub o_sec e_sec mapping [] k hk with h | h
  · cases h
  · exact h

theorem dhas_of_dfind (d : Dict) (k : String) (v : Value) (h : dfind d k = some v) :
    dhas d k = true := by
  induction d with
  | nil => cases h
  | cons p d ih =>
      rw [dfind_cons] at h
      rw [dhas_cons]
      by_cases hp : p.1 = k
      · rw [beq_iff_eq.mpr hp]
        rfl
      · rw [if_neg hp] at h
        rw [ih h, Bool.or_true]

theorem dkeys_dremove_sub (d : Dict) (k0 : String) :
    ∀ k ∈ dkeys (dremove d k0), k ∈ dkeys d := by
  intro k hk
  rcases List.mem_map.mp hk with ⟨q, hq, rfl⟩
  exact List.mem_map.mpr ⟨q, (List.mem_filter.mp hq).1, rfl⟩

theorem fix_fixed_pin_keys_sub (bt : Dict) :
    ∀ k ∈ dkeys (fix_fixed_pin bt), k ∈ dkeys bt := by
  intro k hk
  simp only [fix_fixed_pin] at hk
  split at hk
  case h_1 s heq =>
    split at hk
    · exact dkeys_dremove_sub bt _ k hk
    · split at hk
      · rcases dkeys_dinsert_subset bt _ _ k hk with h | h
        · exact h
        · subst h
          exact (dhas_iff_mem_dkeys bt _).mp (dhas_of_dfind bt _ _ heq)
      · exact hk
  case h_2 => exact hk

/-- Part A of C8: over any computed diff, the endswith-based reboot check is
true exactly when one of the four statically known suspect keys is present
in its section's changeset. -/
theorem reboot_expected_eq (o e : DeviceModel) :
    is_reboot_expected (build_diff o e) = true ↔
      (dhas (build_diff o e).device "device.role" = true ∨
       dhas (build_diff o e).lora "lora.region" = true ∨
       dhas (build_diff o e).lora "lora.modem_preset" = true ∨
       dhas (build_diff o e).bluetooth "bluetooth.enabled" = true) := by
  have hdev : ∀ k ∈ dkeys (build_diff o e).device, k = "device.role" := by
    intro k hk
    have := sec_diff_keys_sub o.Device e.Device DEVICE_MAP k hk
    simpa [DEVICE_MAP] using this
  have hlora : ∀ k ∈ dkeys (build_diff o e).lora, k ∈ LORA_MAP.map Prod.snd :=
    sec_diff_keys_sub o.Lora e.Lora LORA_MAP
  have hbt : ∀ k ∈ dkeys (build_diff o e).bluetooth, k ∈ BLUETOOTH_MAP.map Prod.snd := by
    intro k hk
    exact sec_diff_keys_sub o.BlueTooth e.BlueTooth BLUETOOTH_MAP k
      (fix_fixed_pin_keys_sub _ k hk)
  have hloraRegion : ∀ k ∈ LORA_MAP.map Prod.snd,
      pyEndsWith k "region" = true → k = "lora.region" := by decide
  have hloraPreset : ∀ k ∈ LORA_MAP.map Prod.snd,
      pyEndsWith k "modem_preset" = true → k = "lora.modem_preset" := by decide
  have hbtEnabled : ∀ k ∈ BLUETOOTH_MAP.map Prod.snd,
      pyEndsWith k "enabled" = true → k = "bluetooth.enabled" := by decide
  simp only [is_reboot_expected, REBOOT_SUSPECTS, List.any_cons, List.any_nil,
    Bool.or_eq_true, Bool.and_eq_true, Bool.or_false, List.any_eq_true,
    Bool.not_eq_true', List.isEmpty_eq_false_iff_exists_mem, Diff.secDict]
  constructor
  · rintro (⟨_, k, hk, hka⟩ | ⟨_, k, hk, hka⟩ | ⟨_, k, hk, hka⟩ | ⟨_, k, hk, hka⟩)
    · have hk' : k ∈ dkeys (build_diff o e).device := hk
      have := hdev k hk'
      subst this
      exact Or.inl ((dhas_iff_mem_dkeys _ _).mpr hk')
    · have := hloraRegion k (hlora k hk) hka
      subst this
      exact Or.inr (Or.inl ((dhas_iff_mem_dkeys _ _).mpr hk))
    · have := hloraPreset k (hlora k hk) hka
      subst this
      exact Or.inr (Or.inr (Or.inl ((dhas_iff_mem_dkeys _ _).mpr hk)))
    · have := hbtEnabled k (hbt k hk) hka
      subst this
      exact Or.inr (Or.inr (Or.inr ((dhas_iff_mem_dkeys _ _).mpr hk)))
  · rintro (h | h | h | h)
    · have hk := (dhas_iff_mem_dkeys _ _).mp h
      obtain ⟨q, hq, _⟩ := List.mem_map.mp hk
      exact Or.inl ⟨⟨q, hq⟩, "device.role", hk, by decide⟩
    · have hk := (dhas_iff_mem_dkeys _ _).mp h
      obtain ⟨q, hq, _⟩ := List.mem_map.mp hk
      exact Or.inr (Or.inl ⟨⟨q, hq⟩, "lora.region", hk, by decide⟩)
    · have hk := (dhas_iff_mem_dkeys _ _).mp h
      obtain ⟨q, hq, _⟩ := List.mem_map.mp hk
      exact Or.inr (Or.inr (Or.inl ⟨⟨q, hq⟩, "lora.modem_preset", hk, by decide⟩))
    · have hk := (dhas_iff_mem_dkeys _ _).mp h
      obtain ⟨q, hq, _⟩ := List.mem_map.mp hk
      exact Or.inr (Or.inr (Or.inr ⟨⟨q, hq⟩, "bluetooth.enabled", hk, by decide⟩))

/-- Effects an executor can emit: only command logs and CLI invocations. -/
def CliEff (eff : Eff) : Prop :=
  match eff with
  | .logCmd _ => True
  | .execCli _ _ => True
  | _ => False

theorem run_cli_logged_cliEff (env : Env) (sec : String) (args : List String) (t : ℚ) :
    ∀ eff ∈ (run_cli_logged env sec args t).2, CliEff eff := by
  intro eff heff
  rcases List.mem_cons.mp heff with rfl | h
  · trivial
  · rcases List.mem_singleton.mp h with rfl
    trivial

theorem execChanDeletes_cliEff (env : Env) :
    ∀ l : List Int, ∀ eff ∈ (execChanDeletes env l).2.1, CliEff eff := by
  intro l
  induction l with
  | nil => intro eff heff; cases heff
  | cons idx rest ih =>
      intro eff heff
      rw [execChanDeletes] at heff
      dsimp only at heff
      split at heff
      · dsimp only at heff
        exact run_cli_logged_cliEff env _ _ _ eff heff
      · dsimp only at heff
        rcases List.mem_append.mp heff with h | h
        · exact run_cli_logged_cliEff env _ _ _ eff h
        · exact ih eff h

theorem execChanUpserts_cliEff (env : Env) :
    ∀ l : List Upsert, ∀ eff ∈ (execChanUpserts env l).2.1, CliEff eff := by
  intro l
  induction l with
  | nil => intro eff heff; cases heff
  | cons u rest ih =>
      intro eff heff
      rw [execChanUpserts] at heff
      dsimp only at heff
      split at heff
      all_goals
        split at heff
        · dsimp only at heff
          exact run_cli_logged_cliEff env _ _ _ eff heff
        · dsimp only at heff
          rcases List.mem_append.mp heff with h | h
          · exact run_cli_logged_cliEff env _ _ _ eff h
          · exact ih eff h

theorem exec_channels_cliEff (env : Env) (plan : ChannelPlan) :
    ∀ eff ∈ (exec_channels env plan).2, CliEff eff := by
  intro eff heff
  rw [exec_channels] at heff
  dsimp only at heff
  split at heff
  · dsimp only at heff
    exact execChanDeletes_cliEff env plan.deletes eff heff
  · split at heff
    · dsimp only at heff
      rcases List.mem_append.mp heff with h | h
      · exact execChanDeletes_cliEff env plan.deletes eff h
      · exact execChanUpserts_cliEff env plan.upserts eff h
    · dsimp only at heff
      rcases List.mem_append.mp heff with h | h
      · exact execChanDeletes_cliEff env plan.deletes eff h
      · exact execChanUpserts_cliEff env plan.upserts eff h

theorem cliEff_of_mem_log_exec (line : String) (args : List String) (t : ℚ)
    (eff : Eff) (h : eff ∈ [Eff.logCmd line, Eff.execCli args t]) : CliEff eff := by
  rcases List.mem_cons.mp h with rfl | h
  · trivial
  · rcases List.mem_singleton.mp h with rfl
    trivial

theorem exec_generic_cliEff (env : Env) (sec : String) (changes : Dict)
    (bool_keys : List String) :
    ∀ eff ∈ (exec_generic env sec changes bool_keys).2, CliEff eff := by
  intro eff heff
  rw [exec_generic] at heff
  simp only [run_cli_logged] at heff
  try dsimp only at heff
  repeat' split at heff
  all_goals first
    | exact cliEff_of_mem_log_exec _ _ _ _ heff
    | cases heff

theorem exec_owner_cliEff (env : Env) (changes : Dict) :
    ∀ eff ∈ (exec_owner env changes).2, CliEff eff := by
  intro eff heff
  rw [exec_owner] at heff
  simp only [run_cli_logged] at heff
  try dsimp only at heff
  repeat' split at heff
  all_goals first
    | exact cliEff_of_mem_log_exec _ _ _ _ heff
    | cases heff

theorem exec_device_cliEff (env : Env) (changes : Dict) (r : SecRes) (tr : List Eff)
    (h : exec_device env changes = some (r, tr)) : ∀ eff ∈ tr, CliEff eff := by
  intro eff heff
  cases changes with
  | nil =>
      rw [exec_device] at h
      cases h
  | cons kv rest =>
      obtain ⟨k, v⟩ := kv
      rw [exec_device] at h
      simp only [run_cli_logged] at h
      injection h with h'
      rw [Prod.mk.injEq] at h'
      rw [← h'.2] at heff
      exact cliEff_of_mem_log_exec _ _ _ _ heff

set_option maxHeartbeats 1600000 in
theorem callExec_cliEff (env : Env) (e : String × Payload) (r : SecRes) (tr : List Eff)
    (h : callExec env e = some (r, tr)) : ∀ eff ∈ tr, CliEff eff := by
  obtain ⟨n, p⟩ := e
  unfold callExec at h
  split at h
  · exact exec_device_cliEff env _ r tr h
  · injection h with h'
    rw [Prod.ext_iff] at h'
    dsimp only at h'
    rw [← h'.2]
    exact exec_owner_cliEff env _
  · injection h with h'
    rw [Prod.ext_iff] at h'
    dsimp only at h'
    rw [← h'.2]
    exact exec_generic_cliEff env _ _ _
  · injection h with h'
    rw [Prod.ext_iff] at h'
    dsimp only at h'
    rw [← h'.2]
    exact exec_generic_cliEff env _ _ _
  · injection h with h'
    rw [Prod.ext_iff] at h'
    dsimp only at h'
    rw [← h'.2]
    exact exec_generic_cliEff env _ _ _
  · injection h with h'
    rw [Prod.ext_iff] at h'
    dsimp only at h'
    rw [← h'.2]
    exact exec_generic_cliEff env _ _ _
  · injection h with h'
    rw [Prod.ext_iff] at h'
    dsimp only at h'
    rw [← h'.2]
    exact exec_generic_cliEff env _ _ _
  · injection h with h'
    rw [Prod.ext_iff] at h'
    dsimp only at h'
    rw [← h'.2]
    exact exec_generic_cliEff env _ _ _
  · injection h with h'
    rw [Prod.ext_iff] at h'
    dsimp only at h'
    rw [← h'.2]
    exact exec_channels_cliEff env _
  · injection h with h'
    rw [Prod.ext_iff] at h'
    dsimp only at h'
    rw [← h'.2]
    exact exec_generic_cliEff env _ _ _
  · cases h

theorem applyLoop_no_sleep (env : Env) :
    ∀ (l : List (String × Payload)) (acc : LoopAcc),
      (∀ t : ℚ, Eff.sleep t ∉ acc.trace) →
      ∀ t : ℚ, Eff.sleep t ∉ (applyLoop env l acc).trace := by
  intro l
  induction l with
  | nil => intro acc hacc t; exact hacc t
  | cons e rest ih =>
      intro acc hacc t
      rw [applyLoop]
      split
      · exact ih acc hacc t
      · cases hc : callExec env e with
        | none => exact hacc t
        | some pr =>
            obtain ⟨r0, tr0⟩ := pr
            dsimp only
            have hacc' : ∀ t : ℚ, Eff.sleep t ∉ acc.trace ++ tr0 := by
              intro t' hmem
              rcases List.mem_append.mp hmem with h | h
              · exact hacc t' h
              · exact absurd (callExec_cliEff env e r0 tr0 hc _ h) (by
                  intro hcli
                  cases hcli)
            split
            · exact ih _ hacc' t
            · split
              · exact hacc' t
              · exact ih _ hacc' t

theorem applyLoop_success_iff (env : Env) :
    ∀ (l : List (String × Payload)) (acc : LoopAcc),
      (acc.anySuccess = true ↔ ∃ p ∈ acc.sections, p.2.status = "success") →
      ((applyLoop env l acc).anySuccess = true ↔
        ∃ p ∈ (applyLoop env l acc).sections, p.2.status = "success") := by
  intro l
  induction l with
  | nil => intro acc hacc; exact hacc
  | cons e rest ih =>
      intro acc hacc
      rw [applyLoop]
      split
      · exact ih acc hacc
      · cases hc : callExec env e with
        | none => exact hacc
        | some pr =>
            obtain ⟨r0, tr0⟩ := pr
            dsimp only
            by_cases hs : r0.status = "success"
            · rw [if_pos hs]
              refine ih _ ?_
              constructor
              · intro _
                exact ⟨(e.1, r0), List.mem_append.mpr (Or.inr (List.mem_singleton.mpr
                    rfl)), hs⟩
              · intro _
                rfl
            · rw [if_neg hs]
              have hext : ∀ b : Bool, (b = true ↔ ∃ p ∈ acc.sections ++ [(e.1, r0)],
                  p.2.status = "success") ↔ (b = true ↔ ∃ p ∈ acc.sections,
                  p.2.status = "success") := by
                intro b
                constructor
                · intro hiff
                  constructor
                  · intro hb
                    obtain ⟨p', hp', hps⟩ := hiff.mp hb
                    rcases List.mem_append.mp hp' with hm | hm
                    · exact ⟨p', hm, hps⟩
                    · rcases List.mem_singleton.mp hm with rfl
                      exact absurd hps hs
                  · intro ⟨p', hp', hps⟩
                    exact hiff.mpr ⟨p', List.mem_append.mpr (Or.inl hp'), hps⟩
                · intro hiff
                  constructor
                  · intro hb
                    obtain ⟨p', hp', hps⟩ := hiff.mp hb
                    exact ⟨p', List.mem_append.mpr (Or.inl hp'), hps⟩
                  · intro ⟨p', hp', hps⟩
                    rcases List.mem_append.mp hp' with hm | hm
                    · exact hiff.mpr ⟨p', hm, hps⟩
                    · rcases List.mem_singleton.mp hm with rfl
                      exact absurd hps hs
              split
              · exact (hext _).mpr hacc
              · exact ih _ ((hext _).mpr hacc)

/-- The shape of a completed apply run: report assembled from the loop
accumulator, trace = detach, section effects, optional settle sleep,
reconnect (+ snapshot when it succeeds), final detach. -/
theorem apply_diff_eq (env : Env) (diff : Diff)
    (hexc : (applyLoop env (executionPlan diff) {}).exc = false) :
    apply_diff env diff =
      (some { status := (applyLoop env (executionPlan diff) {}).status
              sections := (applyLoop env (executionPlan diff) {}).sections
              errors := some ((applyLoop env (executionPlan diff) {}).errors.map
                  (fun p => ErrEntry.sec p.1 p.2) ++
                (if env.reconnectOk then []
                 else [ErrEntry.reconnectOrSnapshot env.reconnectErrMsg]))
              post_snapshot := if env.reconnectOk then some (snapshot env.iface true)
                else none },
       [Eff.detach] ++ (applyLoop env (executionPlan diff) {}).trace ++
         (if is_reboot_expected diff || (applyLoop env (executionPlan diff) {}).anySuccess
          then [Eff.sleep 2] else []) ++
         (if env.reconnectOk then [Eff.reconnect 15, Eff.snapshotReq true]
          else [Eff.reconnect 15]) ++ [Eff.detach]) := by
  simp only [apply_diff]
  rw [if_neg (by rw [hexc]; decide)]
  by_cases hrc : env.reconnectOk = true
  · simp [hrc]
  · simp only [Bool.not_eq_true] at hrc
    simp [hrc]

/-- C8: a computed diff expects a reboot iff one of the four reboot-suspect
keys (device role, LoRa region, LoRa modem preset, bluetooth enabled) is in
its section's changeset; and an apply run sleeps the fixed 2-second settle
interval iff a reboot is expected or some section result was a success. -/
theorem reboot_and_settle_spec :
    (∀ o e : DeviceModel,
      is_reboot_expected (build_diff o e) = true ↔
        (dhas (build_diff o e).device "device.role" = true ∨
         dhas (build_diff o e).lora "lora.region" = true ∨
         dhas (build_diff o e).lora "lora.modem_preset" = true ∨
         dhas (build_diff o e).bluetooth "bluetooth.enabled" = true)) ∧
    (∀ (env : Env) (diff : Diff),
      (applyLoop env (executionPlan diff) {}).exc = false →
      (Eff.sleep 2 ∈ (apply_diff env diff).2 ↔
        (is_reboot_expected diff = true ∨
          ∃ p ∈ sectionsOf (apply_diff env diff), p.2.status = "success"))) := by
  refine ⟨reboot_expected_eq, ?_⟩
  intro env diff hexc
  have hshape := apply_diff_eq env diff hexc
  have hnosleep : ∀ t : ℚ, Eff.sleep t ∉ (applyLoop env (executionPlan diff) {}).trace :=
    applyLoop_no_sleep env _ {} (fun t h => absurd h (List.not_mem_nil _))
  have hsucc : (applyLoop env (executionPlan diff) {}).anySuccess = true ↔
      ∃ p ∈ (applyLoop env (executionPlan diff) {}).sections, p.2.status = "success" := by
    refine applyLoop_success_iff env _ {} ?_
    constructor
    · intro h
      cases h
    · rintro ⟨p, hp, _⟩
      cases hp
  have hsec : sectionsOf (apply_diff env diff) =
      (applyLoop env (executionPlan diff) {}).sections := by
    rw [hshape]
    rfl
  rw [hsec, hshape]
  dsimp only
  constructor
  · intro hmem
    rcases List.mem_append.mp hmem with h | h
    · rcases List.mem_append.mp h with h | h
      · rcases List.mem_append.mp h with h | h
        · rcases List.mem_append.mp h with h | h
          · exact absurd h (by decide)
          · exact absurd h (hnosleep 2)
        · split at h
          · rename_i hcond
            rw [Bool.or_eq_true] at hcond
            rcases hcond with hb | hb
            · exact Or.inl hb
            · exact Or.inr (hsucc.mp hb)
          · cases h
      · split at h
        · exact absurd h (by decide)
        · exact absurd h (by decide)
    · exact absurd h (by decide)
  · intro hrs
    have hcond : (is_reboot_expected diff ||
        (applyLoop env (executionPlan diff) {}).anySuccess) = true := by
      rcases hrs with h | h
      · rw [h]
        rfl
      · rw [hsucc.mpr h, Bool.or_true]
    rw [hcond]
    simp

/-- Witness for C8: a device-role change with a succeeding tool performs the
settle sleep. -/
theorem reboot_and_settle_spec_witness :
    Eff.sleep 2 ∈ (apply_diff okEnv abortDiff).2 := by
  refine (reboot_and_settle_spec.2 okEnv abortDiff rfl).mpr (Or.inl ?_)
  decide

/-! ## C1: equal snapshots -/

theorem sec_diff_self (s : Dict) (mapping : List (String × String)) :
    sec_diff s s mapping = [] := by
  suffices h : ∀ acc : Dict, mapping.foldl
      (fun out p =>
        let ov := dget s p.1
        let ev := dget s p.1
        if ev ≠ vNull ∧ ov ≠ ev then dinsert out p.2 ev else out)
      acc = acc from h []
  intro acc
  induction mapping generalizing acc with
  | nil => rfl
  | cons p rest ih =>
      rw [List.foldl_cons]
      rw [if_neg (fun hc => hc.2 rfl)]
      exact ih acc

theorem owner_diff_self (u : Dict) : owner_diff u u = [] := by
  simp only [owner_diff]
  rw [if_neg (fun hc => hc.2 rfl), if_neg (fun hc => hc.2 rfl)]

theorem modules_diff_self (mc : List (String × Dict)) : modules_diff mc mc = [] := by
  suffices h : ∀ (maps : List (String × List (String × String))) (acc : Dict),
      maps.foldl
        (fun acc m =>
          let o_sec := mget mc m.1
          let e_sec := mget mc m.1
          m.2.foldl
            (fun acc p =>
              let ov := dget o_sec p.1
              let ev := dget e_sec p.1
              let ovn := module_norm ov
              let evn := module_norm ev
              if evn = vNull then acc
              else if evn = vBool false ∧ ov = vNull then acc
              else if ovn ≠ evn then dinsert acc p.2 evn
              else acc)
            acc)
        acc = acc by
    exact h MODULE_MAPS []
  intro maps
  induction maps with
  | nil => intro acc; rfl
  | cons m rest ih =>
      intro acc
      rw [List.foldl_cons]
      have hinner : ∀ (mapping : List (String × String)) (acc' : Dict),
          mapping.foldl
            (fun acc p =>
              let ov := dget (mget mc m.1) p.1
              let ev := dget (mget mc m.1) p.1
              let ovn := module_norm ov
              let evn := module_norm ev
              if evn = vNull then acc
              else if evn = vBool false ∧ ov = vNull then acc
              else if ovn ≠ evn then dinsert acc p.2 evn
              else acc)
            acc' = acc' := by
        intro mapping
        induction mapping with
        | nil => intro acc'; rfl
        | cons p prest pih =>
            intro acc'
            rw [List.foldl_cons]
            by_cases h1 : module_norm (dget (mget mc m.1) p.1) = vNull
            · rw [if_pos h1]
              exact pih acc'
            · rw [if_neg h1]
              by_cases h2 : module_norm (dget (mget mc m.1) p.1) = vBool false ∧
                  dget (mget mc m.1) p.1 = vNull
              · rw [if_pos h2]
                exact pih acc'
              · rw [if_neg h2, if_neg (fun hc => hc rfl)]
                exact pih acc'
      rw [hinner m.2 acc]
      exact ih acc

theorem byIdx_keys_nodup (cs : List MeshChannel) :
    ((byIdx cs).map Prod.fst).Nodup := by
  suffices h : ∀ (l : List MeshChannel) (m : List (Int × MeshChannel)),
      (m.map Prod.fst).Nodup →
      ((l.foldl (fun m c => idxInsert m c.index c) m).map Prod.fst).Nodup from
    h cs [] (by simp)
  intro l
  induction l with
  | nil => intro m hm; exact hm
  | cons c rest ih =>
      intro m hm
      rw [List.foldl_cons]
      refine ih _ ?_
      rw [keys_idxInsert]
      by_cases h : idxHas m c.index = true
      · rw [if_pos h]
        exact hm
      · rw [if_neg h]
        rw [List.nodup_append]
        refine ⟨hm, List.nodup_singleton _, ?_⟩
        intro a ha hb
        rw [List.mem_singleton.mp hb] at ha
        exact h ((idxHas_iff m c.index).mpr ha)

theorem idxGet_of_mem (m : List (Int × MeshChannel)) (i : Int) (c : MeshChannel)
    (hnd : (m.map Prod.fst).Nodup) (hmem : (i, c) ∈ m) : idxGet m i = some c := by
  induction m with
  | nil => cases hmem
  | cons q rest ih =>
      rw [List.map_cons, List.nodup_cons] at hnd
      rcases List.mem_cons.mp hmem with rfl | hmem'
      · simp [idxGet, List.find?]
      · have hqi : q.1 ≠ i := by
          intro he
          exact hnd.1 (he ▸ List.mem_map.mpr ⟨(i, c), hmem', rfl⟩)
        have hb : (q.1 == i) = false := beq_eq_false_iff_ne.mpr hqi
        simp only [idxGet, List.find?, hb]
        exact ih hnd.2 hmem'

theorem chFieldStep_self (c : MeshChannel) (f : Dict) (p : String × String) :
    chFieldStep (some c) c f p = f := by
  simp only [chFieldStep, chGet]
  split
  · rfl
  · split
    · rfl
    · rw [if_neg (fun hc => hc rfl)]

theorem channelFieldsBase_self (c : MeshChannel) : channelFieldsBase (some c) c = [] := by
  simp only [channelFieldsBase]
  cases hn : c.name with
  | none =>
      dsimp only
      rw [if_neg (fun hc => hc rfl)]
  | some n =>
      dsimp only
      rw [if_neg (fun hc => hc (by
        rw [show Option.bind (some c) MeshChannel.name = c.name from rfl, hn]))]
      rw [if_neg (fun hc => hc rfl)]

theorem channelFields_self (c : MeshChannel) : channelFields (some c) c = [] := by
  rw [channelFields, channelFieldsBase_self]
  simp only [channelFieldPairs, List.foldl_cons, List.foldl_nil, chFieldStep_self]

theorem diff_channels_self (cs : List MeshChannel) :
    diff_channels cs cs = ChannelPlan.mk [] [] := by
  simp only [diff_channels]
  have hdel : ((byIdx cs).map Prod.fst).filter
      (fun idx => decide (idx ≠ 0 ∧ ¬ idxHas (byIdx cs) idx = true)) = [] := by
    rw [List.filter_eq_nil_iff]
    intro a ha
    simp only [decide_eq_true_eq, not_and, not_not]
    intro _
    exact (idxHas_iff _ a).mpr ha
  have hup : ∀ (l : List (Int × MeshChannel)) (acc : List Upsert),
      (∀ p ∈ l, p ∈ byIdx cs) →
      l.foldl
        (fun acc p =>
          let fields := channelFields (idxGet (byIdx cs) p.1) p.2
          if fields ≠ [] then acc ++ [Upsert.mk p.1 fields] else acc)
        acc = acc := by
    intro l
    induction l with
    | nil => intro acc _; rfl
    | cons p rest ih =>
        intro acc hl
        rw [List.foldl_cons]
        have hget : idxGet (byIdx cs) p.1 = some p.2 := by
          have hp : (p.1, p.2) ∈ byIdx cs := by
            have := hl p (List.mem_cons_self p rest)
            simpa using this
          exact idxGet_of_mem (byIdx cs) p.1 p.2 (byIdx_keys_nodup cs) hp
        rw [if_neg (by
          rw [hget, channelFields_self]
          exact fun hc => hc rfl)]
        exact ih acc (fun q hq => hl q (List.mem_cons_of_mem p hq))
  rw [hdel, hup _ [] (fun p hp =>
    (List.perm_insertionSort (fun a b => a.1 ≤ b.1) (byIdx cs)).mem_iff.mp hp)]
  rfl

theorem build_diff_self (m : DeviceModel) : build_diff m m = ({} : Diff) := by
  simp only [build_diff, sec_diff_self, owner_diff_self, modules_diff_self,
    diff_channels_self]
  rfl

/-- Running the section loop on an entirely empty diff: the eight dictionary
payloads and the modules payload are falsy and skipped, but the channels
plan — a two-key dictionary — is truthy, gets executed, and records a
`no_change` channel result without touching the external tool. -/
theorem applyLoop_empty_diff (env : Env) :
    applyLoop env (executionPlan ({} : Diff)) {} =
      { sections := [("channels", SecRes.chan "no_change" [] [])]
        errors := []
        status := "ok"
        anySuccess := false
        trace := []
        exc := false } := rfl

/-- C1: on section-wise equal models `_build_diff` does produce an all-empty
diff, but `apply_from_models` does not short-circuit to `no_change`: the
channels value of the diff is the two-key plan dictionary, which is truthy
even when both of its lists are empty, so `any(diff.values())` is always
true. The engine therefore detaches, runs the section loop, and reports
overall status `ok` (with a `no_change` channels section) instead of the
specified `no_change`; only the absence of external-process invocations
holds. -/
theorem apply_from_models_equal_models (env : Env) (m : DeviceModel) :
    build_diff m m = ({} : Diff) ∧
    statusOf (apply_from_models env m m) ≠ some "no_change" ∧
    statusOf (apply_from_models env m m) = some "ok" ∧
    Eff.detach ∈ (apply_from_models env m m).2 ∧
    ∀ (args : List String) (t : ℚ), Eff.execCli args t ∉ (apply_from_models env m m).2 := by
  have hbd : build_diff m m = ({} : Diff) := build_diff_self m
  have happ : apply_from_models env m m = apply_diff env ({} : Diff) := by
    simp only [apply_from_models, hbd]
    rw [if_neg (by decide)]
  have hexc : (applyLoop env (executionPlan ({} : Diff)) {}).exc = false := by
    rw [applyLoop_empty_diff env]
  have hshape := apply_diff_eq env ({} : Diff) hexc
  have hstat : statusOf (apply_from_models env m m) = some "ok" := by
    rw [happ, hshape, applyLoop_empty_diff env]
    rfl
  refine ⟨hbd, ?_, hstat, ?_, ?_⟩
  · rw [hstat]
    decide
  · rw [happ, hshape]
    simp
  · intro args t
    rw [happ, hshape, applyLoop_empty_diff env]
    have hrb : is_reboot_expected ({} : Diff) = false := by decide
    by_cases hrc : env.reconnectOk = true
    · simp [hrb, hrc]
    · simp only [Bool.not_eq_true] at hrc
      simp [hrb, hrc]

theorem apply_from_models_equal_models_witness :
    statusOf (apply_from_models okEnv ({} : DeviceModel) ({} : DeviceModel)) = some "ok" ∧
    Eff.detach ∈ (apply_from_models okEnv ({} : DeviceModel) ({} : DeviceModel)).2 :=
  ⟨(apply_from_models_equal_models okEnv {}).2.2.1,
   (apply_from_models_equal_models okEnv {}).2.2.2.1⟩

/-! ## C7: the post-apply snapshot and the refresh fallback -/

/-- C7: when the reconnect step completes, the apply run requests a
forced-refresh snapshot and attaches exactly that snapshot to the report as
the post-apply snapshot; and when the forced refresh fails, `snapshot`
swallows the failure and falls back to reading the cached interface data —
the model built from the cached data, identical to a non-forced read when
the cache is populated — rather than leaving the field empty. -/
theorem post_snapshot_spec (env : Env) (diff : Diff)
    (hexc : (applyLoop env (executionPlan diff) {}).exc = false)
    (hrc : env.reconnectOk = true) :
    (postSnapshotOf (apply_diff env diff) = some (snapshot env.iface true) ∧
     Eff.snapshotReq true ∈ (apply_diff env diff).2) ∧
    (∀ ifc : Iface, ifc.refreshOk = false →
      snapshot ifc true = readModel ifc.data) ∧
    (∀ ifc : Iface, ifc.refreshOk = false →
      ifc.data.cfgLoaded = true → ifc.data.channels.isEmpty = false →
      snapshot ifc true = snapshot ifc false) := by
  have hshape := apply_diff_eq env diff hexc
  refine ⟨⟨?_, ?_⟩, ?_, ?_⟩
  · rw [hshape]
    simp [postSnapshotOf, hrc]
  · rw [hshape]
    simp [hrc]
  · intro ifc h
    simp [snapshot, h]
  · intro ifc h h1 h2
    simp [snapshot, h, h1, h2]

theorem post_snapshot_spec_witness :
    postSnapshotOf (apply_diff okEnv ({} : Diff)) = some (snapshot okEnv.iface true) ∧
    snapshot ({ refreshOk := false } : Iface) true =
      readModel ({ refreshOk := false } : Iface).data :=
  ⟨(post_snapshot_spec okEnv {} (by rfl) (by rfl)).1.1,
   (post_snapshot_spec okEnv {} (by rfl) (by rfl)).2.1
     { refreshOk := false } (by rfl)⟩

end MeshConfig
